import Mathlib

/-!
Shallow embedding of the Skyblock market-intelligence backend
(`src/parseLore.js` v9, `src/server.js` v19, `src/ingest.js` v4) in Lean 4.

Modelling conventions, stated once here:
* JS strings are Lean `String`/`List Char`.  JS numbers are `Int` (the code
  only ever produces integral values on the paths under study; `NaN` is
  modelled by `Option Int` where a conversion can fail).
* `String.prototype.normalize("NFKC")` is modelled character-wise by
  `nfkcChar`, which performs the compatibility decompositions of the digit
  code points this code base manipulates (circled, fullwidth, superscript,
  subscript digits) and is the identity elsewhere.
* The Unicode classes `\p{L}` / `\p{N}` / `\s` / `\w` of the JS regexes are
  modelled by their ASCII restrictions (`Char.isAlpha`, `Char.isDigit`, an
  explicit whitespace set, alphanumeric-or-underscore).
* The external parsing boundary `parseItemBytes` (base64 + gzip +
  `prismarine-nbt`) is modelled by quantifying over its result, a value of
  the dynamic-value type `JVal`; every reachable result of the real parser
  is some `Option JVal`.
-/

/-! ## JS text primitives -/

/-- The whitespace characters of the JS `\s` class (ASCII part) and of
`String.prototype.trim`. -/
def jsWs (c : Char) : Bool :=
  c = ' ' ∨ c = '\t' ∨ c = '\n' ∨ c = '\r' ∨ c = Char.ofNat 11 ∨ c = Char.ofNat 12

/-- Model of `\p{L}` (ASCII restriction). -/
def jsLetter (c : Char) : Bool := c.isAlpha

/-- Model of `\p{N}` (ASCII restriction). -/
def jsDigit (c : Char) : Bool := c.isDigit

/-- JS line terminators, which `.` in a regex does not match. -/
def jsLineTerm (c : Char) : Bool :=
  c = '\n' ∨ c = '\r' ∨ c = Char.ofNat 0x2028 ∨ c = Char.ofNat 0x2029

/-- `stripMcFormatting`: `String(s).replace(/§./g, "")` — removes each `§`
together with the following character, except that `.` does not match a line
terminator and a trailing `§` is kept. -/
def stripMcChars : List Char → List Char
  | [] => []
  | '§' :: c :: rest => if jsLineTerm c then '§' :: stripMcChars (c :: rest) else stripMcChars rest
  | c :: rest => c :: stripMcChars rest

/-- Character-wise model of NFKC: compatibility decompositions of the digit
code points handled by this code base (circled, fullwidth, superscript and
subscript digits); identity on every other character.  The dingbat digits
`➊…➓`, `❶…❿`, `⓵…⓾` have no NFKC decomposition and are left alone. -/
def nfkcChar (c : Char) : List Char :=
  if c = '⓪' then ['0'] else
  if '①' ≤ c ∧ c ≤ '⑨' then [Char.ofNat ('1'.toNat + (c.toNat - '①'.toNat))] else
  if '０' ≤ c ∧ c ≤ '９' then [Char.ofNat ('0'.toNat + (c.toNat - '０'.toNat))] else
  if c = '⁰' then ['0'] else
  if c = '¹' then ['1'] else
  if c = '²' then ['2'] else
  if c = '³' then ['3'] else
  if '⁴' ≤ c ∧ c ≤ '⁹' then [Char.ofNat ('4'.toNat + (c.toNat - '⁴'.toNat))] else
  if '₀' ≤ c ∧ c ≤ '₉' then [Char.ofNat ('0'.toNat + (c.toNat - '₀'.toNat))] else
  [c]

def nfkcStr (cs : List Char) : List Char := cs.flatMap nfkcChar

/-- The `DIGIT_CHAR_MAP` of `parseLore.js` / `server.js`: the enumerated
circled, fullwidth, dingbat-circled, negative-circled, double-circled,
superscript and subscript digits, mapped to their ASCII digit strings
(`➓`, `❿`, `⓾` map to the two-character string `"10"`). -/
def digitCharMap (c : Char) : Option (List Char) :=
  if c = '⓪' then some ['0'] else
  if '①' ≤ c ∧ c ≤ '⑨' then some [Char.ofNat ('1'.toNat + (c.toNat - '①'.toNat))] else
  if '０' ≤ c ∧ c ≤ '９' then some [Char.ofNat ('0'.toNat + (c.toNat - '０'.toNat))] else
  if '➊' ≤ c ∧ c ≤ '➒' then some [Char.ofNat ('1'.toNat + (c.toNat - '➊'.toNat))] else
  if c = '➓' then some ['1', '0'] else
  if '❶' ≤ c ∧ c ≤ '❾' then some [Char.ofNat ('1'.toNat + (c.toNat - '❶'.toNat))] else
  if c = '❿' then some ['1', '0'] else
  if '⓵' ≤ c ∧ c ≤ '⓽' then some [Char.ofNat ('1'.toNat + (c.toNat - '⓵'.toNat))] else
  if c = '⓾' then some ['1', '0'] else
  if c = '⁰' then some ['0'] else
  if c = '¹' then some ['1'] else
  if c = '²' then some ['2'] else
  if c = '³' then some ['3'] else
  if '⁴' ≤ c ∧ c ≤ '⁹' then some [Char.ofNat ('4'.toNat + (c.toNat - '⁴'.toNat))] else
  if '₀' ≤ c ∧ c ≤ '₉' then some [Char.ofNat ('0'.toNat + (c.toNat - '₀'.toNat))] else
  none

/-- `normalizeWeirdDigits` of `parseLore.js`: strip `§`-codes, NFKC, then map
each remaining character through `DIGIT_CHAR_MAP`. -/
def normalizeWeirdDigitsChars (cs : List Char) : List Char :=
  (nfkcStr (stripMcChars cs)).flatMap (fun c => (digitCharMap c).getD [c])

def normalizeWeirdDigits (s : String) : String :=
  ⟨normalizeWeirdDigitsChars s.toList⟩

/-- Collapse every run of `\s` characters to a single space
(`.replace(/\s+/g, " ")`). -/
def collapseWsAux : Bool → List Char → List Char
  | _, [] => []
  | prevWs, c :: rest =>
    if jsWs c then
      if prevWs then collapseWsAux true rest else ' ' :: collapseWsAux true rest
    else
      c :: collapseWsAux false rest

def collapseWs (cs : List Char) : List Char := collapseWsAux false cs

/-- JS `String.prototype.trim` (whitespace from both ends). -/
def jsTrimChars (cs : List Char) : List Char :=
  ((cs.dropWhile jsWs).reverse.dropWhile jsWs).reverse

def jsTrim (s : String) : String := ⟨jsTrimChars s.toList⟩

/-- `cleanText` of `parseLore.js`: strip `§`-codes, NFKC, curly apostrophe to
straight, replace every character outside `\p{L}\p{N}\s'` with a space,
collapse whitespace, trim. -/
def cleanTextChars (cs : List Char) : List Char :=
  let x1 := nfkcStr (stripMcChars cs)
  let x2 := x1.map (fun c => if c = '’' then '\'' else c)
  let x3 := x2.map (fun c => if jsLetter c ∨ jsDigit c ∨ jsWs c ∨ c = '\'' then c else ' ')
  jsTrimChars (collapseWs x3)

def cleanText (s : String) : String := ⟨cleanTextChars s.toList⟩

/-- `normKey` of `parseLore.js`: lowercased `cleanText`, apostrophes removed,
`-`/`_` mapped to spaces, whitespace collapsed and trimmed. -/
def normKeyChars (cs : List Char) : List Char :=
  let x1 := (cleanTextChars cs).map Char.toLower
  let x2 := x1.filter (fun c => ¬ (c = '\'' ∨ c = '’'))
  let x3 := x2.map (fun c => if c = '-' ∨ c = '_' then ' ' else c)
  jsTrimChars (collapseWs x3)

def normKey (s : String) : String := ⟨normKeyChars s.toList⟩

/-- Replace every run of `\s` with `"_"` (`.replace(/\s+/g, "_")`). -/
def wsToUnderscoreAux : Bool → List Char → List Char
  | _, [] => []
  | prevWs, c :: rest =>
    if jsWs c then
      if prevWs then wsToUnderscoreAux true rest else '_' :: wsToUnderscoreAux true rest
    else
      c :: wsToUnderscoreAux false rest

def wsToUnderscore (cs : List Char) : List Char := wsToUnderscoreAux false cs

/-- `toSigKey` of `parseLore.js`: `normKey` with spaces turned into
underscores. -/
def toSigKey (s : String) : String := ⟨wsToUnderscore (normKey s).toList⟩

/-- JS `String.prototype.split(sep)` on character lists (`"".split(sep)`
gives `[""]`). -/
def splitOnChar (sep : Char) : List Char → List (List Char)
  | [] => [[]]
  | c :: rest =>
    let r := splitOnChar sep rest
    if c = sep then [] :: r
    else (c :: r.headD []) :: r.tail

/-- Boolean prefix test on character lists. -/
def prefixChars : List Char → List Char → Bool
  | [], _ => true
  | _ :: _, [] => false
  | a :: as, b :: bs => a = b && prefixChars as bs

/-- Boolean infix (substring) test on character lists. -/
def infixChars (needle : List Char) : List Char → Bool
  | [] => prefixChars needle []
  | c :: rest => prefixChars needle (c :: rest) || infixChars needle rest

/-- Substring test, JS `String.prototype.includes`. -/
def containsSubstr (hay needle : String) : Bool :=
  infixChars needle.toList hay.toList

/-- Replace underscores with spaces (`.replace(/_/g, " ")`). -/
def underscoreToSpace (s : String) : String :=
  ⟨s.toList.map (fun c => if c = '_' then ' ' else c)⟩

/-- `normalizeEnchantKey` of `parseLore.js`: `normKey`, underscores to spaces,
a leading `"ultimate "` stripped. -/
def normalizeEnchantKey (s : String) : String :=
  let kl := (underscoreToSpace (normKey s)).toList
  let kl := if prefixChars "ultimate ".toList kl then kl.drop 9 else kl
  let kl := if prefixChars "ultimate_".toList kl then kl.drop 9 else kl
  jsTrim ⟨kl⟩

/-- Model of JS `Number(string)`: trims whitespace, maps the empty string to
`0`, parses an optionally signed decimal integer literal, and yields `none`
(for `NaN`) on anything else.  (Fractional, exponent and hex literals are not
modelled; they do not occur on the studied paths.) -/
def jsNumber (s : String) : Option Int :=
  let t := jsTrimChars s.toList
  match t with
  | [] => some 0
  | '-' :: ds => if ds ≠ [] ∧ ds.all Char.isDigit then some (-(digitsVal ds)) else none
  | '+' :: ds => if ds ≠ [] ∧ ds.all Char.isDigit then some (digitsVal ds) else none
  | ds => if ds.all Char.isDigit then some (digitsVal ds) else none
where
  digitsVal (ds : List Char) : Int :=
    ds.foldl (fun acc c => acc * 10 + (c.toNat - '0'.toNat : Int)) 0

/-! ## Star-cluster text parsing (`coflnetStars10FromText`, parseLore.js) -/

/-- `STAR_CHARS` of `parseLore.js` (bullets `•` deliberately excluded). -/
def starChars : List Char := ['✪', '★', '☆', '✯', '✰', '●', '⬤', '○', '◉', '◎', '◍']

def isStarChar (c : Char) : Bool := starChars.contains c

/-- The separator class `[\s·|:()\[\]{}<>~\-_=+.,]` of the backward star
walk. -/
def isSepChar (c : Char) : Bool :=
  jsWs c ||
    ['·', '|', ':', '(', ')', '[', ']', Char.ofNat 123, Char.ofNat 125,
      '<', '>', '~', '-', '_', '=', '+', '.', ','].contains c

/-- Index of the last star character at position `≥ start`, scanning downward
from `i - 1`. -/
def findLastStarFrom (cs : List Char) (start : Nat) : Nat → Option Nat
  | 0 => none
  | i + 1 =>
    if start ≤ i ∧ isStarChar (cs.getD i ' ') then some i
    else findLastStarFrom cs start i

/-- The backward counting walk: starting just past index `i` (first argument
is `i + 1`), count up to 5 star characters, spending from a separator budget
(`gapBudget`, reset to 12 at every star) between them. -/
def countStarsBack (cs : List Char) : Nat → Nat → Nat → Nat
  | 0, count, _ => count
  | i + 1, count, gap =>
    if 5 ≤ count then count
    else
      let ch := cs.getD i ' '
      if isStarChar ch then countStarsBack cs i (count + 1) 12
      else if 0 < gap ∧ isSepChar ch then countStarsBack cs i count (gap - 1)
      else count

/-- First ASCII digit `1`–`5` in the list (the `after.match(/[1-5]/)` step). -/
def firstDigit15 : List Char → Option Nat
  | [] => none
  | c :: rest =>
    if '1' ≤ c ∧ c ≤ '5' then some (c.toNat - '0'.toNat) else firstDigit15 rest

/-- ASCII model of the JS regex word class `\w`. -/
def jsWordChar (c : Char) : Bool := c.isAlphanum || c = '_'

/-- Case-insensitive match of the lowercase pattern `p` at the head of `l`,
followed by a word boundary (`\b`). -/
def patAt : List Char → List Char → Bool
  | [], [] => true
  | [], c :: _ => ¬ jsWordChar c
  | _ :: _, [] => false
  | a :: ps, b :: rest => a = b.toLower && patAt ps rest

/-- Left-to-right scan for `/\b(i{1,3}|iv|v)\b/i`, alternatives tried in the
backtracking order of the JS engine (`iii`, `ii`, `i`, `iv`, `v`); returns the
Roman value of the first match. -/
def romanScan : Option Char → List Char → Option Nat
  | _, [] => none
  | prev, c :: rest =>
    let boundary := match prev with
      | none => true
      | some pc => ¬ jsWordChar pc
    if boundary then
      if patAt ['i', 'i', 'i'] (c :: rest) then some 3
      else if patAt ['i', 'i'] (c :: rest) then some 2
      else if patAt ['i'] (c :: rest) then some 1
      else if patAt ['i', 'v'] (c :: rest) then some 4
      else if patAt ['v'] (c :: rest) then some 5
      else romanScan (some c) rest
    else romanScan (some c) rest

/-- The slice `s.slice(lastStarIdx + 1, lastStarIdx + 64)` inspected after a
full 5-star cluster. -/
def afterWindow (cs : List Char) (j : Nat) : List Char :=
  (cs.drop (j + 1)).take 63

/-- Core of `coflnetStars10FromText`, applied to the already-normalized
character list; returns 0–10. -/
def coflnetStars10Core (cs : List Char) : Nat :=
  if cs = [] then 0
  else
    let n := cs.length
    let start := n - 80
    match findLastStarFrom cs start n with
    | none => 0
    | some j =>
      let starCount := countStarsBack cs (j + 1) 0 12
      if starCount = 0 then 0
      else if starCount < 5 then starCount
      else
        match firstDigit15 (afterWindow cs j) with
        | some d => 5 + d
        | none =>
          match romanScan none (afterWindow cs j) with
          | some d => 5 + d
          | none => 5

/-- `coflnetStars10FromText` of `parseLore.js`: normalize weird digits (which
already strips `§`-codes and applies NFKC), NFKC again, then run the cluster
walk on the tail window. -/
def coflnetStars10FromText (s : String) : Nat :=
  coflnetStars10Core (nfkcStr (normalizeWeirdDigitsChars s.toList))

/-! ## Dynamic values (`JVal`): the loosely-typed NBT / JSON trees -/

/-- A JS dynamic value as produced by `prismarine-nbt` / `JSON.parse`:
null, boolean, number, string, array or object. -/
inductive JVal where
  | jnull
  | jbool (b : Bool)
  | jnum (n : Int)
  | jstr (s : String)
  | jarr (elems : List JVal)
  | jobj (fields : List (String × JVal))
deriving Repr

mutual

def jsize : JVal → Nat
  | .jnull | .jbool _ | .jnum _ | .jstr _ => 1
  | .jarr es => 1 + jsizeList es
  | .jobj fs => 1 + jsizeFields fs

def jsizeList : List JVal → Nat
  | [] => 0
  | v :: rest => jsize v + jsizeList rest

def jsizeFields : List (String × JVal) → Nat
  | [] => 0
  | (_, v) :: rest => jsize v + jsizeFields rest

end

/-- First-match property lookup on an object's field list. -/
def jlookup (fs : List (String × JVal)) (k : String) : Option JVal :=
  (fs.find? (fun kv => kv.1 = k)).map Prod.snd

/-- `obj?.k` on an arbitrary value: `undefined` (here `none`) unless the value
is an object with the property. -/
def jget : JVal → String → Option JVal
  | .jobj fs, k => jlookup fs k
  | _, _ => none

/-- JS truthiness of a dynamic value (`null`, `false`, `0`, `""` are falsy;
arrays and objects are truthy). -/
def jtruthy : JVal → Bool
  | .jnull => false
  | .jbool b => b
  | .jnum n => n ≠ 0
  | .jstr s => s ≠ ""
  | .jarr _ => true
  | .jobj _ => true

/-- `typeof v === "object" && v` — a non-null object or array. -/
def isObjectLike : JVal → Bool
  | .jobj _ => true
  | .jarr _ => true
  | _ => false

/-- JS `Number(v)` on a dynamic value; `none` models `NaN`.  (The array /
object corner cases of JS coercion are not modelled; the code only converts
numbers and numeric strings here.) -/
def jToNumber : JVal → Option Int
  | .jnull => some 0
  | .jbool true => some 1
  | .jbool false => some 0
  | .jnum n => some n
  | .jstr s => jsNumber s
  | .jarr _ => none
  | .jobj _ => none

/-- JS `String(v)` on the primitive values that reach it in this code base. -/
def jToString : JVal → String
  | .jnull => "null"
  | .jbool true => "true"
  | .jbool false => "false"
  | .jnum n => toString n
  | .jstr s => s
  | .jarr _ => ""
  | .jobj _ => ""

/-- `unwrap` of `parseLore.js`: any object carrying both a `type` and a
`value` property collapses to the unwrapped `value`; arrays and other objects
unwrap element-wise.  Implemented with a fuel argument (`jsize` strictly
bounds the recursion depth, so the fuel of the wrapper below never runs
out). -/
def unwrapFuel : Nat → JVal → JVal
  | 0, v => v
  | fuel + 1, v =>
    match v with
    | .jobj fs =>
      if (jlookup fs "type").isSome ∧ (jlookup fs "value").isSome then
        unwrapFuel fuel ((jlookup fs "value").getD .jnull)
      else
        .jobj (fs.map (fun kv => (kv.1, unwrapFuel fuel kv.2)))
    | .jarr es => .jarr (es.map (unwrapFuel fuel))
    | x => x

def unwrap (v : JVal) : JVal := unwrapFuel (jsize v) v

/-- The object-valued children pushed on the DFS stack (`Object.values`). -/
def childVals : JVal → List JVal
  | .jobj fs => fs.map Prod.snd
  | .jarr es => es
  | _ => []

/-- One probe of the DFS: `cur.ExtraAttributes` if it is a non-null object,
else `cur.tag?.ExtraAttributes` likewise. -/
def extraProbe : JVal → Option JVal
  | .jobj fs =>
    match jlookup fs "ExtraAttributes" with
    | some v => if isObjectLike v then some v else do
        let t ← jlookup fs "tag"
        let ea ← jget t "ExtraAttributes"
        if isObjectLike ea then some ea else none
    | none => do
        let t ← jlookup fs "tag"
        let ea ← jget t "ExtraAttributes"
        if isObjectLike ea then some ea else none
  | _ => none

/-- The explicit-stack depth-first search of `findExtraAttributes`
(children are pushed in `Object.values` order and popped last-first). -/
def dfsExtraAux : Nat → List JVal → Option JVal
  | 0, _ => none
  | _, [] => none
  | fuel + 1, cur :: rest =>
    match extraProbe cur with
    | some v => some v
    | none =>
      dfsExtraAux fuel (((childVals cur).filter isObjectLike).reverse ++ rest)

/-- `findExtraAttributes` of `parseLore.js`, on the (possibly absent) parse
result. -/
def findExtraAttributes (rootParsed : Option JVal) : Option JVal :=
  match rootParsed with
  | none => none
  | some rp =>
    let root := unwrap rp
    if ¬ isObjectLike root then none
    else dfsExtraAux (jsize root + 1) [root]

/-- Escaping of `JSON.stringify` (the control characters beyond
`\n`, `\r`, `\t` are not modelled). -/
def escapeJsonChar (c : Char) : List Char :=
  if c = '"' then ['\\', '"'] else
  if c = '\\' then ['\\', '\\'] else
  if c = '\n' then ['\\', 'n'] else
  if c = '\r' then ['\\', 'r'] else
  if c = '\t' then ['\\', 't'] else [c]

def joinComma (ls : List (List Char)) : List Char :=
  match ls with
  | [] => []
  | x :: rest => x ++ rest.flatMap (fun y => ',' :: y)

/-- `JSON.stringify` of a dynamic value (fuelled; `jsize` bounds the
depth). -/
def jsonStringifyFuel : Nat → JVal → List Char
  | 0, _ => []
  | fuel + 1, v =>
    match v with
    | .jnull => "null".toList
    | .jbool true => "true".toList
    | .jbool false => "false".toList
    | .jnum n => (toString n).toList
    | .jstr s => '"' :: (s.toList.flatMap escapeJsonChar ++ ['"'])
    | .jarr es => '[' :: (joinComma (es.map (jsonStringifyFuel fuel)) ++ [']'])
    | .jobj fs =>
      Char.ofNat 123 ::
        (joinComma (fs.map (fun kv =>
          '"' :: (kv.1.toList.flatMap escapeJsonChar ++ ['"', ':'] ++ jsonStringifyFuel fuel kv.2)))
          ++ [Char.ofNat 125])

def jsonStringify (v : JVal) : String := ⟨jsonStringifyFuel (jsize v) v⟩

/-! ## A small JSON parser (models `JSON.parse` for `extra.petInfo`) -/

/-- String-body parsing for `jsonParse` (the `\uXXXX` escape is not
modelled). -/
def parseJsonStrBody : Nat → List Char → List Char → Option (String × List Char)
  | 0, _, _ => none
  | fuel + 1, acc, cs =>
    match cs with
    | [] => none
    | '"' :: rest => some (⟨acc.reverse⟩, rest)
    | '\\' :: e :: rest =>
      let esc : Option Char :=
        if e = '"' then some '"' else
        if e = '\\' then some '\\' else
        if e = '/' then some '/' else
        if e = 'n' then some '\n' else
        if e = 't' then some '\t' else
        if e = 'r' then some '\r' else
        if e = 'b' then some (Char.ofNat 8) else
        if e = 'f' then some (Char.ofNat 12) else none
      match esc with
      | some c => parseJsonStrBody fuel (c :: acc) rest
      | none => none
    | c :: rest => parseJsonStrBody fuel (c :: acc) rest

mutual

/-- Recursive-descent JSON value parser (fuelled; integer numerals only). -/
def parseJVal : Nat → List Char → Option (JVal × List Char)
  | 0, _ => none
  | fuel + 1, cs0 =>
    let cs := cs0.dropWhile jsWs
    match cs with
    | 'n' :: 'u' :: 'l' :: 'l' :: rest => some (.jnull, rest)
    | 't' :: 'r' :: 'u' :: 'e' :: rest => some (.jbool true, rest)
    | 'f' :: 'a' :: 'l' :: 's' :: 'e' :: rest => some (.jbool false, rest)
    | '"' :: rest => (parseJsonStrBody (rest.length + 1) [] rest).map (fun p => (.jstr p.1, p.2))
    | '[' :: rest =>
      let rest1 := rest.dropWhile jsWs
      match rest1 with
      | ']' :: r2 => some (.jarr [], r2)
      | _ => parseJArr fuel rest []
    | c :: rest =>
      if c = Char.ofNat 123 then
        let rest1 := rest.dropWhile jsWs
        match rest1 with
        | d :: r2 => if d = Char.ofNat 125 then some (.jobj [], r2) else parseJObj fuel rest []
        | [] => none
      else if c = '-' then
        let ds := rest.takeWhile Char.isDigit
        if ds = [] then none
        else some (.jnum (-(jsNumber.digitsVal ds)), rest.drop ds.length)
      else if c.isDigit then
        let ds := cs.takeWhile Char.isDigit
        some (.jnum (jsNumber.digitsVal ds), cs.drop ds.length)
      else none
    | [] => none

/-- Array elements: value, then `,` and more elements or `]`. -/
def parseJArr : Nat → List Char → List JVal → Option (JVal × List Char)
  | 0, _, _ => none
  | fuel + 1, cs, acc =>
    match parseJVal fuel cs with
    | none => none
    | some (v, rest) =>
      let rest1 := rest.dropWhile jsWs
      match rest1 with
      | ',' :: r2 => parseJArr fuel r2 (v :: acc)
      | ']' :: r2 => some (.jarr (v :: acc).reverse, r2)
      | _ => none

/-- Object members: `"key": value`, then `,` and more members or the closing
brace. -/
def parseJObj : Nat → List Char → List (String × JVal) → Option (JVal × List Char)
  | 0, _, _ => none
  | fuel + 1, cs, acc =>
    let cs1 := cs.dropWhile jsWs
    match cs1 with
    | '"' :: rest =>
      match parseJsonStrBody (rest.length + 1) [] rest with
      | none => none
      | some (k, r1) =>
        let r2 := r1.dropWhile jsWs
        match r2 with
        | ':' :: r3 =>
          match parseJVal fuel r3 with
          | none => none
          | some (v, r4) =>
            let r5 := r4.dropWhile jsWs
            match r5 with
            | ',' :: r6 => parseJObj fuel r6 ((k, v) :: acc)
            | d :: r6 => if d = Char.ofNat 125 then some (.jobj ((k, v) :: acc).reverse, r6) else none
            | [] => none
        | _ => none
    | _ => none

end

/-- `JSON.parse` model: succeeds only when the whole (trimmed) input is one
JSON value. -/
def jsonParse (s : String) : Option JVal :=
  match parseJVal (4 * s.length + 8) s.toList with
  | some (v, rest) => if rest.dropWhile jsWs = [] then some v else none
  | none => none

/-! ## Canonical item key (parseLore.js) -/

/-- Character class of `stripVariantDigits`
(`[⓪①-⑳⓴-⓿❶-❿➀-➓➊-➓]`). -/
def isVariantDigitChar (c : Char) : Bool :=
  c.toNat = 0x24EA ∨
  (0x2460 ≤ c.toNat ∧ c.toNat ≤ 0x2473) ∨
  (0x24F4 ≤ c.toNat ∧ c.toNat ≤ 0x24FF) ∨
  (0x2776 ≤ c.toNat ∧ c.toNat ≤ 0x277F) ∨
  (0x2780 ≤ c.toNat ∧ c.toNat ≤ 0x2793)

/-- `stripVariantDigits`: NFKC, then the variant-digit code points become
spaces. -/
def stripVariantDigits (cs : List Char) : List Char :=
  (nfkcStr cs).map (fun c => if isVariantDigitChar c then ' ' else c)

/-- Replace every run of star/circle glyphs by one space
(`.replace(/[✪★☆✯✰●⬤○◉◎◍]+/g, " ")`). -/
def stripStarRunsAux : Bool → List Char → List Char
  | _, [] => []
  | prev, c :: rest =>
    if isStarChar c then
      if prev then stripStarRunsAux true rest else ' ' :: stripStarRunsAux true rest
    else
      c :: stripStarRunsAux false rest

def stripStarRuns (cs : List Char) : List Char := stripStarRunsAux false cs

/-- Characters after the first occurrence of `cl`, if any. -/
def afterClose (cl : Char) : List Char → Option (List Char)
  | [] => none
  | c :: rest => if c = cl then some rest else afterClose cl rest

/-- `.replace(/\(([^)]*)\)/g, " ")` (and the bracket analogue): each
delimited run with a closing delimiter becomes one space; an unmatched opener
stays. -/
def stripDelimFuel (o cl : Char) : Nat → List Char → List Char
  | 0, cs => cs
  | _ + 1, [] => []
  | fuel + 1, c :: rest =>
    if c = o then
      match afterClose cl rest with
      | some after => ' ' :: stripDelimFuel o cl fuel after
      | none => c :: stripDelimFuel o cl fuel rest
    else
      c :: stripDelimFuel o cl fuel rest

def stripDelim (o cl : Char) (cs : List Char) : List Char :=
  stripDelimFuel o cl cs.length cs

/-- `(\p{L})(\d+)` → `"$1 $2"`: a space is inserted at every letter-digit
boundary. -/
def splitLetterDigit : List Char → List Char
  | [] => []
  | [a] => [a]
  | a :: b :: rest =>
    if jsLetter a ∧ jsDigit b then a :: ' ' :: splitLetterDigit (b :: rest)
    else a :: splitLetterDigit (b :: rest)

/-- `tokenize` of `parseLore.js`: `normKey` split on spaces, empty tokens
dropped. -/
def tokenize (s : String) : List String :=
  ((splitOnChar ' ' (normKey s).toList).map (fun cs => (⟨cs⟩ : String))).filter (fun t => t ≠ "")

/-- `REFORGE_PREFIXES` of `parseLore.js`, in source order. -/
def reforgeSet : List String := [
  "hasty", "precise", "rapid", "spiritual", "fine", "neat", "grand", "awkward", "rich", "headstrong", "unreal",
  "fabled", "withered", "heroic", "spicy", "sharp", "legendary", "dirty", "fanged", "suspicious", "bulky",
  "gilded", "warped", "coldfused", "fair", "gentle", "odd", "fast", "jerry's",
  "ancient", "giant", "perfect", "renowned", "jaded", "loving", "necrotic", "empowered", "spiked", "cubic",
  "hyper", "submerged", "pure", "smart", "clean", "fierce", "heavy", "light", "wise", "titanic", "mythic", "waxed",
  "fortified", "strengthened", "glistening", "blooming", "rooted", "royal", "blood-soaked",
  "auspicious", "fleet", "refined", "heated", "ambered", "magnetic", "mithraic", "lustrous", "glacial", "blazing",
  "blessed", "bountiful", "moil", "toil", "earthy", "moonglade",
  "salty", "treacherous", "sturdy", "pitchin'", "lucky", "aquadynamic", "chilly", "stiff"]

/-- `stripReforgePrefixTokens`: drop up to two leading reforge tokens, as long
as more than one token remains. -/
def stripReforgeTokens (t : List String) : List String :=
  let t1 := if 1 < t.length ∧ reforgeSet.contains (t.headD "") then t.tail else t
  if 1 < t1.length ∧ reforgeSet.contains (t1.headD "") then t1.tail else t1

def isDigitTok (s : String) : Bool := s ≠ "" ∧ s.toList.all Char.isDigit

/-- `while (t.length > 1 && /^\d+$/.test(t[t.length-1])) t.pop()`, on the
reversed token list. -/
def popTrailRev : List String → List String
  | [] => []
  | [x] => [x]
  | s :: rest => if isDigitTok s then popTrailRev rest else s :: rest

/-- `canonicalItemKey` of `parseLore.js`. -/
def canonicalItemKey (name : String) : String :=
  let s1 := stripVariantDigits name.toList
  let s2 := stripMcChars s1
  let s3 := stripStarRuns s2
  let s4 := stripDelim '(' ')' s3
  let s5 := stripDelim '[' ']' s4
  let s6 := splitLetterDigit s5
  let t := tokenize ⟨s6⟩
  if t = [] then ""
  else
    let t :=
      if (t.headD "" = "lvl" ∨ t.headD "" = "lv" ∨ t.headD "" = "level") ∧ isDigitTok ((t.drop 1).headD "")
      then t.drop 2 else t
    if t = [] then ""
    else
      let t := stripReforgeTokens t
      let t := (popTrailRev t.reverse).reverse
      String.intercalate " " t

/-! ## Feature extraction and `buildSignature` (parseLore.js) -/

/-- `ench.set(nk, Math.max(ench.get(nk) || 0, lv))` on an insertion-ordered
association list. -/
def insertMaxLevel : List (String × Int) → String → Int → List (String × Int)
  | [], k, lv => [(k, lv)]
  | (k', v') :: rest, k, lv =>
    if k' = k then (k', max v' lv) :: rest else (k', v') :: insertMaxLevel rest k lv

def lookupLevel (m : List (String × Int)) (k : String) : Int :=
  ((m.find? (fun kv => kv.1 = k)).map Prod.snd).getD 0

/-- The anchored match `^([A-Z_]+)_(\d{1,2})$` for the string form of
`ultimate_enchant`. -/
def matchUpperUnd (s : String) : Option (String × Int) :=
  let rev := s.toList.reverse
  let ds := rev.takeWhile Char.isDigit
  if ds.length < 1 ∨ 2 < ds.length then none
  else
    match rev.drop ds.length with
    | '_' :: nameRev =>
      if nameRev ≠ [] ∧ nameRev.all (fun c => c.isUpper ∨ c = '_') then
        some (⟨nameRev.reverse⟩, jsNumber.digitsVal ds.reverse)
      else none
    | _ => none

/-- `undefined`/`null`, the values skipped by `??`. -/
def nullish : Option JVal → Bool
  | none => true
  | some .jnull => true
  | some _ => false

def firstNonNullish (l : List (Option JVal)) : Option JVal :=
  match l.find? (fun v => ¬ nullish v) with
  | some (some v) => some v
  | _ => none

/-- `extractEnchants` of `parseLore.js`: the `extra.enchantments` map with
normalized keys and max-merge, then `extra.ultimate_enchant` merged in. -/
def extractEnchants (extra : JVal) : List (String × Int) :=
  let entries : List (String × JVal) :=
    match jget extra "enchantments" with
    | some (.jobj fs) => fs
    | some (.jarr es) => (es.enum.map fun p => (toString p.1, p.2))
    | _ => []
  let base := entries.foldl (fun m kv =>
    let nk := normalizeEnchantKey (underscoreToSpace kv.1)
    match jToNumber kv.2 with
    | some lv => if nk ≠ "" ∧ 0 < lv then insertMaxLevel m nk lv else m
    | none => m) []
  match jget extra "ultimate_enchant" with
  | none => base
  | some u =>
    if ¬ jtruthy u then base
    else
      let nameLv : String × Option Int :=
        match u with
        | .jstr s =>
          match matchUpperUnd s with
          | some nl => (nl.1, some nl.2)
          | none => ("", some 0)
        | .jobj fs =>
          let nm := firstNonNullish [jlookup fs "enchant", jlookup fs "enchantment", jlookup fs "id"]
          let lv := firstNonNullish [jlookup fs "level", jlookup fs "lvl", jlookup fs "tier"]
          ((nm.map jToString).getD "", (lv.map jToNumber).getD (some 0))
        | _ => ("", some 0)
      let nk := normalizeEnchantKey (underscoreToSpace nameLv.1)
      match nameLv.2 with
      | some lv => if nk ≠ "" ∧ 0 < lv then insertMaxLevel base nk lv else base
      | none => base

/-- `clampInt` of `parseLore.js` (`none` models a non-finite number). -/
def clampIntJs (x : Option Int) (lo hi : Int) : Int :=
  match x with
  | none => 0
  | some n => max lo (min hi n)

/-- `clamp(extra?.k ?? 0, lo, hi)`. -/
def extraNum (extra : JVal) (k : String) (lo hi : Int) : Int :=
  let v : Option Int :=
    match jget extra k with
    | none => some 0
    | some .jnull => some 0
    | some u => jToNumber u
  clampIntJs v lo hi

/-- `totalToSplit` of `parseLore.js`. -/
def totalToSplit (total10 : Int) : Int × Int :=
  let t := max 0 (min 10 total10)
  if t ≤ 0 then (0, 0) else if t ≤ 5 then (t, 0) else (5, t - 5)

/-- `extractStars` of `parseLore.js` (v9): the priority cascade over
`dungeon_item_level`, `upgrade_level` and the text fallback. -/
def extractStars (extra : JVal) (itemName loreRaw : String) : Int × Int :=
  let d10 := extraNum extra "dungeon_item_level" 0 10
  let u10 := extraNum extra "upgrade_level" 0 10
  if 5 < d10 then (5, d10 - 5)
  else if 5 < u10 then (5, u10 - 5)
  else if 0 < d10 ∧ 0 < u10 then
    let dstars := max 0 (min 5 d10)
    let mstars := max 0 (min 5 u10)
    let dstars := if 0 < mstars ∧ dstars = 0 then 5 else dstars
    let dstars := if 0 < mstars ∧ dstars < 5 then 5 else dstars
    (dstars, mstars)
  else if 0 < d10 then (max 0 (min 5 d10), 0)
  else if 0 < u10 then
    let total : Int := max (coflnetStars10FromText itemName) (coflnetStars10FromText loreRaw)
    if 5 < total then
      let split := totalToSplit total
      if 0 < split.2 ∧ split.1 ≠ 5 then (5, split.2) else split
    else (max 0 (min 5 u10), 0)
  else
    let total : Int := max (coflnetStars10FromText itemName) (coflnetStars10FromText loreRaw)
    let split := totalToSplit total
    if 0 < split.2 ∧ split.1 ≠ 5 then (5, split.2) else split

/-- `extractPetLevel` of `parseLore.js`: a `petInfo` JSON level in `[1,200]`,
else a leading `lvl|lv|level <digits>` pair of the name. -/
def extractPetLevel (extra : JVal) (itemName : String) : Int :=
  let fromInfo : Option Int :=
    match jget extra "petInfo" with
    | some (.jstr s) =>
      match jsonParse s with
      | some obj =>
        match (jget obj "level").bind jToNumber with
        | some lv => if 1 ≤ lv ∧ lv ≤ 200 then some lv else none
        | none => none
      | none => none
    | _ => none
  match fromInfo with
  | some lv => lv
  | none =>
    let t := tokenize itemName
    if (t.headD "" = "lvl" ∨ t.headD "" = "lv" ∨ t.headD "" = "level") ∧ isDigitTok ((t.drop 1).headD "") then
      let lv := (jsNumber ((t.drop 1).headD "")).getD 0
      if 1 ≤ lv ∧ lv ≤ 200 then lv else 0
    else 0

/-- `extractCosmetics` of `parseLore.js`: `(dye, skin, petskin)`, each
`"none"` when absent. -/
def extractCosmetics (extra : JVal) : String × String × String :=
  let dye := match jget extra "dye_item" with
    | some (.jstr s) => toSigKey (underscoreToSpace s)
    | _ => ""
  let skin := match jget extra "skin" with
    | some (.jstr s) => toSigKey (underscoreToSpace s)
    | _ => ""
  let petSkinRaw := firstNonNullish [jget extra "petSkin", jget extra "pet_skin"]
  let petskin := match petSkinRaw with
    | some (.jstr s) => if s ≠ "" then toSigKey (underscoreToSpace s) else ""
    | _ => ""
  (if dye = "" then "none" else dye,
   if skin = "" then "none" else skin,
   if petskin = "" then "none" else petskin)

/-- The line match `^(held item|pet item)\s*[: ]\s*(.+)$` (two regexes in the
source: a colon form and a whitespace form), on an already NFKC-normalized
and trimmed line; returns `cleanText(m[2]).trim()`. -/
def matchHeldLine (line : List Char) : Option String :=
  let lower := line.map Char.toLower
  let pn : Option Nat :=
    if prefixChars "held item".toList lower then some 9
    else if prefixChars "pet item".toList lower then some 8 else none
  match pn with
  | none => none
  | some n =>
    let rest := line.drop n
    let ws := rest.takeWhile jsWs
    let r1 := rest.drop ws.length
    let pat1 : Option (List Char) :=
      match r1 with
      | ':' :: r2 =>
        if r2 = [] then none
        else
          let r3 := r2.dropWhile jsWs
          some (if r3 = [] then r2 else r3)
      | _ => none
    match pat1 with
    | some m2 => some (jsTrim (cleanText ⟨m2⟩))
    | none =>
      if ws = [] then none
      else if r1 ≠ [] then some (jsTrim (cleanText ⟨r1⟩))
      else if 2 ≤ ws.length then some ""
      else none

/-- `parsePetHeldItemFromLore`: the first lore line matching the held-item
patterns (its value, possibly empty). -/
def parsePetHeldItemFromLore (loreRaw : String) : String :=
  let lore : String := ⟨stripMcChars loreRaw.toList⟩
  match ((splitOnChar '\n' lore.toList).map (fun cs => (⟨cs⟩ : String))).findSome? (fun ln => matchHeldLine (jsTrimChars (nfkcStr ln.toList))) with
  | some lbl => lbl
  | none => ""

def petHeldFieldNames : List String :=
  ["petItem", "pet_item", "heldItem", "held_item", "petHeldItem", "pet_held_item"]

/-- `extractPetHeldItem` of `parseLore.js`: `(label, key)`. -/
def extractPetHeldItem (extra : JVal) (loreRaw : String) : String × String :=
  let fromFields := petHeldFieldNames.findSome? (fun fn =>
    match jget extra fn with
    | some (.jstr s) =>
      if jsTrim s ≠ "" then
        let label := jsTrim (underscoreToSpace s)
        let key := toSigKey label
        if key ≠ "" then some (label, key) else none
      else none
    | _ => none)
  match fromFields with
  | some lk => lk
  | none =>
    let ll := parsePetHeldItemFromLore loreRaw
    if ll ≠ "" then
      let key := toSigKey ll
      if key ≠ "" then (ll, key) else ("", "")
    else ("", "")

/-- The wither-blade test of `extractWitherImpactFlag`: the normalized
canonical key merely has to CONTAIN one of the four blade names. -/
def isBladeKey (itemName : String) : Bool :=
  let k := normKey (canonicalItemKey itemName)
  containsSubstr k "hyperion" || containsSubstr k "astraea" ||
    containsSubstr k "scylla" || containsSubstr k "valkyrie"

/-- The scroll test of `extractWitherImpactFlag` (v9): the lowercased
`JSON.stringify(unwrap(rootParsed) || {})` must contain all three scroll
names. -/
def stringifyScrollTest (rootParsed : Option JVal) : Bool :=
  let u := match rootParsed with
    | none => JVal.jnull
    | some rp => unwrap rp
  let w := if jtruthy u then u else .jobj []
  let s : String := ⟨(jsonStringify w).toList.map Char.toLower⟩
  containsSubstr s "implosion_scroll" && containsSubstr s "shadow_warp_scroll" &&
    containsSubstr s "wither_shield_scroll"

/-- `extractWitherImpactFlag` of `parseLore.js` (v9).  Note: it receives the
item name and the raw parse tree only — the lore is not consulted. -/
def extractWitherImpactFlag (itemName : String) (rootParsed : Option JVal) : Bool :=
  if ¬ isBladeKey itemName then false
  else stringifyScrollTest rootParsed

/-- `mapToEnchantTokens`: sort by name ascending (level descending on the
impossible tie), then render `toSigKey(name) : level`. -/
def insertTok (x : String × Int) : List (String × Int) → List (String × Int)
  | [] => [x]
  | y :: rest =>
    if x.1 < y.1 ∨ (x.1 = y.1 ∧ y.2 < x.2) then x :: y :: rest
    else y :: insertTok x rest

def sortTokens (m : List (String × Int)) : List (String × Int) :=
  m.foldr insertTok []

def mapToEnchantTokens (m : List (String × Int)) : List (String × String) :=
  (sortTokens m).map (fun kv => (toSigKey kv.1, toString kv.2))

/-- `buildSignature` of `parseLore.js` (v9), as the ordered token list.
`rootParsed` stands for the result of the external `parseItemBytes`
(base64 + gzip + NBT) boundary. -/
def buildSignatureParts (itemName lore tier : String) (rootParsed : Option JVal) :
    List (String × String) :=
  let extra := (findExtraAttributes rootParsed).getD (.jobj [])
  let enchTokens := mapToEnchantTokens (extractEnchants extra)
  let ds := extractStars extra itemName lore
  let hasWI := extractWitherImpactFlag itemName rootParsed
  let petLevel := extractPetLevel extra itemName
  let cosm := extractCosmetics extra
  let petHeld := extractPetHeldItem extra lore
  let tierKey : String := ⟨wsToUnderscore (normKey tier).toList⟩
  let dst0 := max 0 (min 5 ds.1)
  let mst := max 0 (min 5 ds.2)
  let dst := if 0 < mst ∧ dst0 ≠ 5 then 5 else dst0
  let stars10 := max 0 (min 10 (dst + mst))
  (if tierKey ≠ "" then [("tier", tierKey)] else []) ++
  (if dst ≠ 0 then [("dstars", toString dst)] else []) ++
  (if mst ≠ 0 then [("mstars", toString mst)] else []) ++
  (if stars10 ≠ 0 then [("stars10", toString stars10)] else []) ++
  (if hasWI then [("wither_impact", "1")] else []) ++
  (if petLevel ≠ 0 then [("pet_level", toString petLevel)] else []) ++
  (if cosm.1 ≠ "" ∧ cosm.1 ≠ "none" then [("dye", cosm.1)] else []) ++
  (if cosm.2.1 ≠ "" ∧ cosm.2.1 ≠ "none" then [("skin", cosm.2.1)] else []) ++
  (if cosm.2.2 ≠ "" ∧ cosm.2.2 ≠ "none" then [("petskin", cosm.2.2)] else []) ++
  (if petHeld.2 ≠ "" then [("pet_item", petHeld.2)] else []) ++
  enchTokens

/-- `buildSignature`: the token list joined with `|`. -/
def buildSignature (itemName lore tier : String) (rootParsed : Option JVal) : String :=
  String.intercalate "|" ((buildSignatureParts itemName lore tier rootParsed).map
    (fun kv => kv.1 ++ ":" ++ kv.2))

/-! ## Signature token access (server.js v19) -/

/-- One `key:value` token: split at the first `:`, skipped if the colon is
missing or leading. -/
def splitToken (p : String) : Option (String × String) :=
  match p.toList.findIdx? (fun c => c = ':') with
  | some i => if i = 0 then none else some (⟨p.toList.take i⟩, ⟨p.toList.drop (i + 1)⟩)
  | none => none

/-- `sigGet` of `server.js`: value of the first token with the given key,
else `""`. -/
def sigGet (sig key : String) : String :=
  match ((splitOnChar '|' sig.toList).map (fun cs => (⟨cs⟩ : String))).findSome? (fun p =>
    match splitToken p with
    | some kv => if kv.1 = key then some kv.2 else none
    | none => none) with
  | some v => v
  | none => ""

def sigDungeonStars (sig : String) : Int :=
  max 0 (min 5 ((jsNumber (sigGet sig "dstars")).getD 0))

def sigMasterStars (sig : String) : Int :=
  max 0 (min 5 ((jsNumber (sigGet sig "mstars")).getD 0))

/-- `sigStars10`: the `stars10` token when positive, else the dstars+mstars
split, else the star-cluster parser run on the signature text itself. -/
def sigStars10 (sig : String) : Int :=
  let s10 := (jsNumber (sigGet sig "stars10")).getD 0
  if 0 < s10 then max 0 (min 10 s10)
  else
    let fromSplit := sigDungeonStars sig + sigMasterStars sig
    if 0 < fromSplit then max 0 (min 10 fromSplit)
    else max 0 (min 10 ((coflnetStars10FromText sig : Int)))

def sigWI (sig : String) : Bool :=
  let v := if sigGet sig "wither_impact" ≠ "" then sigGet sig "wither_impact"
           else sigGet sig "witherimpact"
  let t : String := ⟨(jsTrimChars v.toList).map Char.toLower⟩
  t = "1" ∨ t = "true" ∨ t = "yes"

def sigTier (sig : String) : String := sigGet sig "tier"

def sigDye (sig : String) : String :=
  if sigGet sig "dye" ≠ "" then sigGet sig "dye" else "none"

def sigSkin (sig : String) : String :=
  if sigGet sig "skin" ≠ "" then sigGet sig "skin" else "none"

def sigPetSkin (sig : String) : String :=
  if sigGet sig "petskin" ≠ "" then sigGet sig "petskin" else "none"

def sigPetLevel (sig : String) : Int :=
  match jsNumber (sigGet sig "pet_level") with
  | some n => max 0 (min 200 n)
  | none => 0

def sigPetItem (sig : String) : String :=
  if sigGet sig "pet_item" ≠ "" then sigGet sig "pet_item" else "none"

/-- `RESERVED_SIG_KEYS` of `server.js`. -/
def reservedSigKeys : List String :=
  ["tier", "dstars", "mstars", "stars10", "stars",
   "wither_impact", "witherimpact",
   "pet_level", "pet_item", "dye", "skin", "petskin"]

/-- `sigEnchantMap` of `server.js`: the non-reserved tokens with positive
numeric levels, normalized, max-merged. -/
def sigEnchantMap (sig : String) : List (String × Int) :=
  ((splitOnChar '|' sig.toList).map (fun cs => (⟨cs⟩ : String))).foldl (fun m p =>
    match splitToken p with
    | none => m
    | some kv =>
      if reservedSigKeys.contains kv.1 then m
      else
        match jsNumber kv.2 with
        | none => m
        | some lv =>
          if lv ≤ 0 then m
          else
            let nameKey := normalizeEnchantKey (underscoreToSpace kv.1)
            if nameKey = "" then m else insertMaxLevel m nameKey lv) []

/-! ## Enchant tier table (parseLore.js) -/

/-- The `addTier`/`addRange` calls of `parseLore.js`, in source order (later
entries overwrite earlier ones for the same `(name, level)`). -/
def tierTableEntries : List (String × String × List Int) := [
  ("Chimera", "AAA", [3, 4, 5]), ("Fatal Tempo", "AAA", [3, 4, 5]),
  ("Prosecute", "AAA", [6]), ("Smoldering", "AAA", [5]), ("Looting", "AAA", [5]),
  ("First Strike", "AAA", [5]), ("Critical", "AAA", [7]), ("Giant Killer", "AAA", [7]),
  ("Vicious", "AAA", [5]), ("Sharpness", "AAA", [7]), ("Ender Slayer", "AAA", [7]),
  ("Power", "AAA", [7]), ("Habanero Tactics", "AAA", [5]), ("Growth", "AAA", [7]),
  ("Protection", "AAA", [7]), ("Expertise", "AAA", [9, 10]), ("Compact", "AAA", [9, 10]),
  ("Efficiency", "AAA", [9, 10]), ("Champion", "AAA", [9, 10]), ("Divine Gift", "AAA", [3]),
  ("Chimera", "AA", [1, 2]), ("Fatal Tempo", "AA", [1]), ("Soul Eater", "AA", [5]),
  ("Duplex", "AA", [1, 2, 3, 4, 5]), ("Dragon Hunter", "AA", [5]), ("Vicious", "AA", [3, 4]),
  ("Snipe", "AA", [4]), ("Overload", "AA", [5]), ("Tabasco", "AA", [2]),
  ("Legion", "AA", [5]), ("Refrigerate", "AA", [5]), ("Counter-Strike", "AA", [5]),
  ("Expertise", "AA", [7, 8]), ("Flash", "AA", [5]), ("Champion", "AA", [6, 7, 8]),
  ("Divine Gift", "AA", [1, 2]), ("Cubism", "AA", [6]),
  ("One For All", "A", [1]), ("Execute", "A", [6]), ("Smite", "A", [7]),
  ("Giant Killer", "A", [6]), ("Syphon", "A", [4, 5]), ("Mana Vampire", "A", [4, 5]),
  ("Smoldering", "A", [4]), ("Tabasco", "A", [3]), ("Thunderlord", "A", [7]),
  ("Thunderbolt", "A", [6, 7]), ("Titan Killer", "A", [7]), ("Dragon Hunter", "A", [3, 4]),
  ("Ultimate Wise", "A", [5]), ("Wisdom", "A", [5]), ("Legion", "A", [1, 2, 3, 4]),
  ("Growth", "A", [6]), ("Rejuvenate", "A", [5]), ("Sugar Rush", "A", [3]),
  ("True Protection", "A", [1]), ("Champion", "A", [1, 2, 3, 4, 5]),
  ("Efficiency", "A", [6, 7, 8]), ("Compact", "A", [5, 6, 7, 8]),
  ("Strong Mana", "A", [5]), ("Ferocious Mana", "A", [5]), ("Divine Gift", "A", [1]),
  ("Protection", "B", [6]), ("Sharpness", "B", [6]), ("Toxophilite", "B", [1]),
  ("Ultimate Wise", "B", [1, 2, 3, 4]), ("Bank", "B", [5]), ("Rejuvenate", "B", [1, 2, 3, 4]),
  ("Feather Falling", "B", [6, 7, 8, 9, 10]), ("Infinite Quiver", "B", [10]),
  ("Turbo-Crops", "B", [5]), ("Vampirism", "B", [6]), ("First Strike", "B", [4]),
  ("Looting", "B", [4]), ("Life Steal", "B", [4, 5]), ("Luck", "B", [7]),
  ("Bane of Arthropods", "B", [7]), ("Pristine", "B", [1, 2, 3, 4]), ("Sunder", "B", [6]),
  ("Harvesting", "B", [6]), ("Smoldering", "B", [1, 2, 3]), ("Dragon Hunter", "B", [1, 2]),
  ("Experience", "B", [4]), ("Fire Aspect", "B", [3]), ("Compact", "B", [1, 2, 3, 4]),
  ("Expertise", "B", [1, 2, 3, 4]),
  ("Bank", "BB", [1, 2, 3, 4]), ("No Pain No Gain", "BB", [1, 2, 3, 4, 5]),
  ("Ultimate Jerry", "BB", [1, 2, 3, 4, 5]), ("Combo", "BB", [1, 2, 3, 4, 5]),
  ("Bane of Arthropods", "BB", [6]), ("Smite", "BB", [6]), ("Luck", "BB", [6]),
  ("Scavenger", "BB", [4, 5]), ("Dragon Tracer", "BB", [6]), ("Punch", "BB", [2]),
  ("Rainbow", "BB", [1]), ("Replenish", "BB", [1]), ("Charm", "BB", [5]),
  ("Corruption", "BB", [5]), ("Sugar Rush", "BB", [1, 2]), ("Fortune", "BB", [4]),
  ("Critical", "BB", [6]), ("Ender Slayer", "BB", [6]), ("Power", "BB", [6])]

/-- Insert-or-overwrite on a flat `(name, level) → tier` association list. -/
def setTierKV (m : List ((String × Int) × String)) (k : String × Int) (t : String) :
    List ((String × Int) × String) :=
  if m.any (fun kv => kv.1 = k) then
    m.map (fun kv => if kv.1 = k then (k, t) else kv)
  else m ++ [(k, t)]

/-- `ENCHANT_TIER_MAP`, built in source order. -/
def enchantTierMap : List ((String × Int) × String) :=
  tierTableEntries.foldl (fun m e =>
    let k := normalizeEnchantKey e.1
    if k = "" then m
    else e.2.2.foldl (fun m lv => setTierKV m (k, lv) (⟨e.2.1.toList.map Char.toUpper⟩ : String)) m) []

/-- `tierFor` of `parseLore.js`: the tier bucket of a `(name, level)`, `"MISC"`
when unknown or the level is not positive. -/
def tierFor (nameKey : String) (lvl : Int) : String :=
  let k := normalizeEnchantKey nameKey
  if k = "" ∨ lvl ≤ 0 then "MISC"
  else
    match enchantTierMap.find? (fun kv => kv.1 = (k, lvl)) with
    | some kv => kv.2
    | none => "MISC"

/-- `TIER_RANK` of `server.js` (`BB<B<A<AA<AAA`, everything else −1). -/
def tierRank (t : String) : Int :=
  let u : String := ⟨t.toList.map Char.toUpper⟩
  if u = "BB" then 0 else if u = "B" then 1 else if u = "A" then 2
  else if u = "AA" then 3 else if u = "AAA" then 4 else -1

/-- `enchantDiff` of `server.js` (v19): the max of the level difference and —
only when both tier buckets are known and non-`MISC` — the tier-rank
difference. -/
def enchantDiff (nameKey : String) (inputLvl saleLvl : Int) : Int :=
  let levelDiff := |saleLvl - inputLvl|
  let inTier := tierFor nameKey inputLvl
  let saTier := tierFor nameKey saleLvl
  let tierDiff :=
    if inTier ≠ "" ∧ saTier ≠ "" ∧ inTier ≠ "MISC" ∧ saTier ≠ "MISC" then
      |tierRank saTier - tierRank inTier|
    else 0
  max levelDiff tierDiff

/-! ## The strict matcher (server.js v19) -/

/-- The user filter bundle of `/api/recommend`. -/
structure Filters where
  userWI : Bool
  userRarity : String
  userDye : String
  userSkin : String
  userPetSkin : String
  userPetLevel : Int
  userPetItem : String
deriving Repr, DecidableEq

/-- `applyVerifiedFiltersOrNull` of `server.js` (v19): `(ok, unverifiable)`. -/
def applyVerifiedFiltersOrNull (sig : String) (f : Filters) : Bool × Bool :=
  if sig = "" then (true, true)
  else if f.userWI ∧ ¬ sigWI sig then (false, false)
  else if f.userRarity ≠ "" ∧ sigTier sig ≠ f.userRarity then (false, false)
  else if f.userDye ≠ "" ∧ f.userDye ≠ "none" ∧ sigDye sig ≠ f.userDye then (false, false)
  else if f.userSkin ≠ "" ∧ f.userSkin ≠ "none" ∧ sigSkin sig ≠ f.userSkin then (false, false)
  else if f.userPetSkin ≠ "" ∧ f.userPetSkin ≠ "none" ∧ sigPetSkin sig ≠ f.userPetSkin then (false, false)
  else if 0 < f.userPetLevel ∧ sigPetLevel sig < f.userPetLevel then (false, false)
  else if f.userPetItem ≠ "" ∧ f.userPetItem ≠ "none" ∧ sigPetItem sig ≠ f.userPetItem then (false, false)
  else (true, false)

/-- The three match-quality outcomes. -/
inductive MatchQuality where
  | NONE
  | PARTIAL
  | PERFECT
deriving Repr, DecidableEq

/-- `NONE < PARTIAL < PERFECT`. -/
def MatchQuality.rank : MatchQuality → Nat
  | .NONE => 0
  | .PARTIAL => 1
  | .PERFECT => 2

/-- A `/api/recommend` match query: requested enchant levels (the entries of
`userEnchantsMap` in iteration order), requested stars10 and filters. -/
structure MatchQuery where
  userEnchants : List (String × Int)
  inputStars10 : Int
  filters : Filters
deriving Repr, DecidableEq

/-- The per-enchantment loop of `strictMatchQuality`: `none` is the `NONE`
early return, otherwise the accumulated partial flag. -/
def enchantLoop (saleEnchants : List (String × Int)) :
    List (String × Int) → Bool → Option Bool
  | [], anyPartial => some anyPartial
  | (k, v) :: rest, anyPartial =>
    if v ≤ 0 then enchantLoop saleEnchants rest anyPartial
    else
      let saleLvl := lookupLevel saleEnchants k
      if saleLvl = 0 then none
      else
        let d := enchantDiff k v saleLvl
        if d = 1 then enchantLoop saleEnchants rest true
        else if 2 ≤ d then none
        else enchantLoop saleEnchants rest anyPartial

/-- The stars block of `strictMatchQuality`: `none` is the `NONE` early
return (`diff ≥ 2`), otherwise the partial flag after the block. -/
def starsStepOf (q : MatchQuery) (sig : String) : Option Bool :=
  if 0 < q.inputStars10 then
    let d := |sigStars10 sig - q.inputStars10|
    if d = 1 then some true else if 2 ≤ d then none else some false
  else some false

/-- `NONE` on the early return, else `PARTIAL`/`PERFECT` from the final
partial flag (`return anyPartial ? "PARTIAL" : "PERFECT"`). -/
def qualOfOpt : Option Bool → MatchQuality
  | none => .NONE
  | some true => .PARTIAL
  | some false => .PERFECT

/-- `strictMatchQuality` of `server.js` (v19). -/
def strictMatchQuality (q : MatchQuery) (sig : String) : MatchQuality :=
  if sig = "" then .NONE
  else if ¬ (applyVerifiedFiltersOrNull sig q.filters).1 then .NONE
  else
    match starsStepOf q sig with
    | none => .NONE
    | some p0 => qualOfOpt (enchantLoop (sigEnchantMap sig) q.userEnchants p0)

/-! ## Ingest pipeline (ingest.js v4) -/

/-- An upstream auction object (one element of a feed page).  `bytesRoot`
models what `parseItemBytes` would return for `itemBytes` (external base64 +
gzip + NBT boundary). -/
structure AuctionIn where
  uuid : String
  itemName : String
  bin : Bool
  startTs : Int
  endTs : Int
  startingBid : Int
  highestBid : Int
  tier : Option String
  itemLore : Option String
  itemBytes : Option String
  bytesRoot : Option JVal
deriving Repr

/-- A row of the `auctions` table.  `bytesRoot` travels with `itemBytes` as
the modelled parse of the stored blob. -/
structure AuctionRow where
  uuid : String
  itemName : String
  itemKey : Option String
  bin : Bool
  startTs : Int
  endTs : Int
  startingBid : Int
  highestBid : Int
  tier : Option String
  itemLore : Option String
  itemBytes : Option String
  bytesRoot : Option JVal
  lastSeenTs : Int
  signature : Option String
  isEnded : Bool
deriving Repr

/-- A row of the `sales` table. -/
structure SaleRow where
  uuid : String
  itemName : String
  itemKey : Option String
  bin : Bool
  finalPrice : Int
  endedTs : Int
  tier : Option String
  signature : Option String
  itemLore : Option String
  itemBytes : Option String
  bytesRoot : Option JVal
deriving Repr

/-- The two tables. -/
structure IngestState where
  auctions : List AuctionRow
  sales : List SaleRow
deriving Repr

/-- `nonEmptyText` of `ingest.js`: the trimmed string when non-empty, else
`null`. -/
def nonEmptyText (x : Option String) : Option String :=
  let s := x.getD ""
  if jsTrim s ≠ "" then some (jsTrim s) else none

/-- `safeBuildSignature`: the built signature when non-empty, else `null`. -/
def safeBuildSignature (itemName lore tier : String) (root : Option JVal) : Option String :=
  let s := buildSignature itemName lore tier root
  if s ≠ "" then some s else none

/-- The row transformation of `upsertAuctionsBulk` (empty uuid rows are
dropped; a signature is built for BIN auctions and anything with lore or
bytes). -/
def toAuctionRow (a : AuctionIn) (now : Int) : Option AuctionRow :=
  let uuid := jsTrim a.uuid
  if uuid = "" then none
  else
    let itemKey := if canonicalItemKey a.itemName ≠ "" then some (canonicalItemKey a.itemName) else none
    let lore := nonEmptyText a.itemLore
    let bytes := nonEmptyText a.itemBytes
    let sig : Option String :=
      if a.bin ∨ lore.isSome ∨ bytes.isSome then
        safeBuildSignature a.itemName (lore.getD "") ((a.tier.getD "")) (if bytes.isSome then a.bytesRoot else none)
      else none
    some { uuid := uuid, itemName := a.itemName, itemKey := itemKey, bin := a.bin,
           startTs := a.startTs, endTs := a.endTs, startingBid := a.startingBid,
           highestBid := a.highestBid, tier := a.tier, itemLore := lore, itemBytes := bytes,
           bytesRoot := a.bytesRoot, lastSeenTs := now, signature := sig, isEnded := false }

/-- `LIKE '%pet_item:%'` (NULL gives no match). -/
def likePetItem : Option String → Bool
  | none => false
  | some s => containsSubstr s "pet_item:"

/-- The `signature = CASE … END` merge rule shared by the `auctions` and
`sales` upserts of `ingest.js`: keep the existing signature unless it is
NULL/empty, or the incoming one introduces a `pet_item:` token that the
existing one lacks. -/
def mergeSignature (ex inc : Option String) : Option String :=
  if ex = none ∨ ex = some "" then inc
  else if ¬ likePetItem ex ∧ likePetItem inc then inc
  else ex

/-- The `ON CONFLICT (uuid) DO UPDATE` row merge of the auctions bulk
upsert. -/
def applyAuctionUpsert (old new_ : AuctionRow) : AuctionRow :=
  { uuid := old.uuid, itemName := new_.itemName, itemKey := new_.itemKey, bin := new_.bin,
    startTs := new_.startTs, endTs := new_.endTs, startingBid := new_.startingBid,
    highestBid := new_.highestBid, tier := new_.tier,
    itemLore := if new_.itemLore.isSome then new_.itemLore else old.itemLore,
    itemBytes := if new_.itemBytes.isSome then new_.itemBytes else old.itemBytes,
    bytesRoot := if new_.itemBytes.isSome then new_.bytesRoot else old.bytesRoot,
    lastSeenTs := new_.lastSeenTs,
    signature := mergeSignature old.signature new_.signature,
    isEnded := false }

def upsertAuctionRow (l : List AuctionRow) (r : AuctionRow) : List AuctionRow :=
  if l.any (fun x => x.uuid = r.uuid) then
    l.map (fun x => if x.uuid = r.uuid then applyAuctionUpsert x r else x)
  else l ++ [r]

/-- `upsertAuctionsBulk` of `ingest.js` at the state level. -/
def upsertAuctionsBulk (list : List AuctionIn) (now : Int) (s : IngestState) : IngestState :=
  { s with auctions := (list.filterMap (fun a => toAuctionRow a now)).foldl upsertAuctionRow s.auctions }

/-- `markNotSeenInSnapshotAsEnded`: every live auction unseen for the 60 s
grace interval is marked ended. -/
def markNotSeenInSnapshotAsEnded (now : Int) (s : IngestState) : IngestState :=
  { s with auctions := s.auctions.map (fun a =>
      if ¬ a.isEnded ∧ a.lastSeenTs < now - 60000 then { a with isEnded := true } else a) }

def saleLookup (sales : List SaleRow) (u : String) : Option SaleRow :=
  sales.find? (fun r => r.uuid = u)

def auctionLookup (auctions : List AuctionRow) (u : String) : Option AuctionRow :=
  auctions.find? (fun r => r.uuid = u)

/-- The `WHERE` clause of the finalize selection: due auctions that are
either not yet ended, or ended but not yet promoted to a sale. -/
def finalizePred (now : Int) (sales : List SaleRow) (a : AuctionRow) : Bool :=
  0 < a.endTs ∧ a.endTs ≤ now ∧ (¬ a.isEnded ∨ (a.isEnded ∧ (saleLookup sales a.uuid).isNone))

def insertByEnd (x : AuctionRow) : List AuctionRow → List AuctionRow
  | [] => [x]
  | y :: rest => if x.endTs ≤ y.endTs then x :: y :: rest else y :: insertByEnd x rest

/-- `ORDER BY end_ts ASC` (stable insertion sort). -/
def sortByEndTs (l : List AuctionRow) : List AuctionRow := l.foldr insertByEnd []

/-- The finalize selection: filter, order by `end_ts`, `LIMIT 5000`. -/
def selectFinalize (now : Int) (s : IngestState) : List AuctionRow :=
  (sortByEndTs (s.auctions.filter (finalizePred now s.sales))).take 5000

/-- The sale row built from an auction row in `finalizeEnded` (final price is
the starting bid for BIN, else the highest bid; the signature is the stored
one when non-empty, else rebuilt). -/
def saleFromAuction (r : AuctionRow) : SaleRow :=
  let price := if r.bin then r.startingBid else r.highestBid
  let ck := canonicalItemKey r.itemName
  let itemKey : Option String :=
    match r.itemKey with
    | some k => if k ≠ "" then some k else if ck ≠ "" then some ck else none
    | none => if ck ≠ "" then some ck else none
  let rebuilt := safeBuildSignature r.itemName (r.itemLore.getD "") (r.tier.getD "")
    (if r.itemBytes.getD "" ≠ "" then r.bytesRoot else none)
  let sig : Option String :=
    match r.signature with
    | some s0 => if jsTrim s0 ≠ "" then some (jsTrim s0) else rebuilt
    | none => rebuilt
  { uuid := r.uuid, itemName := r.itemName, itemKey := itemKey, bin := r.bin,
    finalPrice := price, endedTs := r.endTs, tier := r.tier, signature := sig,
    itemLore := r.itemLore, itemBytes := r.itemBytes, bytesRoot := r.bytesRoot }

/-- The `ON CONFLICT (uuid) DO UPDATE` of the sales upsert (lore and bytes
are not listed in the update and therefore keep their old values). -/
def applySaleUpsert (old new_ : SaleRow) : SaleRow :=
  { uuid := old.uuid, itemName := new_.itemName, itemKey := new_.itemKey, bin := new_.bin,
    finalPrice := new_.finalPrice, endedTs := new_.endedTs, tier := new_.tier,
    signature := mergeSignature old.signature new_.signature,
    itemLore := old.itemLore, itemBytes := old.itemBytes, bytesRoot := old.bytesRoot }

def upsertSaleRow (l : List SaleRow) (r : SaleRow) : List SaleRow :=
  if l.any (fun x => x.uuid = r.uuid) then
    l.map (fun x => if x.uuid = r.uuid then applySaleUpsert x r else x)
  else l ++ [r]

def markAuctionEnded (l : List AuctionRow) (u : String) : List AuctionRow :=
  l.map (fun a => if a.uuid = u then { a with isEnded := true } else a)

/-- One `finalizeEnded` call: select, then per selected row upsert the sale
and mark the auction ended; returns the new state and the number of rows
moved. -/
def finalizeEnded (now : Int) (s : IngestState) : IngestState × Nat :=
  let rows := selectFinalize now s
  let s' := rows.foldl (fun st r =>
    { auctions := markAuctionEnded st.auctions r.uuid,
      sales := upsertSaleRow st.sales (saleFromAuction r) }) s
  (s', rows.length)

/-- The finalize loop of `syncOnce`: up to 60 iterations, stopping at the
first empty batch. -/
def finalizeLoop (now : Int) : Nat → IngestState → IngestState
  | 0, s => s
  | k + 1, s =>
    let r := finalizeEnded now s
    if r.2 = 0 then r.1 else finalizeLoop now k r.1

def insertByEndedDesc (x : SaleRow) : List SaleRow → List SaleRow
  | [] => [x]
  | y :: rest => if y.endedTs ≤ x.endedTs then x :: y :: rest else y :: insertByEndedDesc x rest

/-- `backfillSalesItemKeys`: up to 20 000 sales with a missing item key
(newest first) get `canonicalItemKey(item_name)` when it is non-empty. -/
def backfillSalesItemKeys (s : IngestState) : IngestState :=
  let missing := ((s.sales.filter (fun r => r.itemKey = none ∨ r.itemKey = some "")).foldr insertByEndedDesc []).take 20000
  let updates := missing.filterMap (fun r =>
    let k := canonicalItemKey r.itemName
    if k ≠ "" then some (r.uuid, k) else none)
  { s with sales := s.sales.map (fun r =>
      match updates.find? (fun p => p.1 = r.uuid) with
      | some p => { r with itemKey := some p.2 }
      | none => r) }

/-- One page of the paginated upstream feed.  A `fetch` function models the
outcome of `fetchPage` after its internal 4-try retry loop and `success`
check: `none` is a page that still fails after the retry budget. -/
structure FeedPage where
  totalPages : Int
  auctions : List AuctionIn
deriving Repr

/-- The page loop of `syncOnce` from page `p` with `remaining` pages to go:
each fetched page is bulk-upserted immediately; a failed fetch aborts
(`false`). -/
def syncPages (fetch : Nat → Option FeedPage) (now : Int) :
    Nat → Nat → IngestState → IngestState × Bool
  | 0, _, s => (s, true)
  | remaining + 1, p, s =>
    match fetch p with
    | none => (s, false)
    | some pg => syncPages fetch now remaining (p + 1) (upsertAuctionsBulk pg.auctions now s)

/-- `syncOnce` of `ingest.js`: page 0, the remaining pages (capped at 200),
then unseen-mark, the finalize loop (≤60 batches) and the sales item-key
backfill — the post-fetch phases run only when every page fetch succeeded. -/
def syncOnce (fetch : Nat → Option FeedPage) (now : Int) (s0 : IngestState) :
    IngestState × Bool :=
  match fetch 0 with
  | none => (s0, false)
  | some pg0 =>
    let total : Int := min (max 1 pg0.totalPages) 200
    let s1 := upsertAuctionsBulk pg0.auctions now s0
    match syncPages fetch now (total - 1).toNat 1 s1 with
    | (s2, false) => (s2, false)
    | (s2, true) =>
      let s3 := markNotSeenInSnapshotAsEnded now s2
      let s4 := finalizeLoop now 60 s3
      let s5 := backfillSalesItemKeys s4
      (s5, true)

/-! ## Spec-worded reference definitions (used to state the claims under
test; each follows the specification text, for comparison with the
source-derived definitions above) -/

/-- Spec wording of C1: the user specified no filter and no numeric
requirement (no stars10, no enchantments, no filter-bundle entry). -/
def noRequirement (q : MatchQuery) : Bool :=
  q.inputStars10 ≤ 0 ∧ q.userEnchants = [] ∧
  q.filters.userWI = false ∧ q.filters.userRarity = "" ∧ q.filters.userDye = "" ∧
  q.filters.userSkin = "" ∧ q.filters.userPetSkin = "" ∧ q.filters.userPetLevel ≤ 0 ∧
  q.filters.userPetItem = ""

/-- Spec wording of C1: the result the claim prescribes for an empty
candidate signature. -/
def claimedEmptySigQuality (q : MatchQuery) : MatchQuality :=
  if noRequirement q then .PERFECT else .NONE

/-- Spec wording of C2: the merge rule with the additional clause (c) — the
incoming signature also wins when the two disagree on their `stars10:`
token. -/
def claimedMergeSignature (ex inc : Option String) : Option String :=
  if ex = none ∨ ex = some "" then inc
  else if ¬ likePetItem ex ∧ likePetItem inc then inc
  else if (ex.map (fun s => sigGet s "stars10")) ≠ (inc.map (fun s => sigGet s "stars10")) then inc
  else ex

/-- Spec wording of C6: after a full 5-star cluster, trim separator
characters, take the first token (up to the next separator), and decide from
that token alone: a single ASCII digit 1–5, a Roman numeral I–V, or
nothing. -/
def claimedTailTokenRule (window : List Char) : Nat :=
  let t := window.dropWhile isSepChar
  let tok := t.takeWhile (fun c => ¬ isSepChar c)
  let lower := tok.map Char.toLower
  if tok.length = 1 ∧ '1' ≤ tok.headD ' ' ∧ tok.headD ' ' ≤ '5' then
    5 + ((tok.headD ' ').toNat - '0'.toNat)
  else if lower = ['i'] then 6
  else if lower = ['i', 'i'] then 7
  else if lower = ['i', 'i', 'i'] then 8
  else if lower = ['i', 'v'] then 9
  else if lower = ['v'] then 10
  else 5

/-- Spec wording of C7: the canonical item key must be exactly one of the
four blade names, and either the lowercased lore contains `"wither impact"`
or the string values gathered from any `extra` key whose name contains
`"scroll"` (case-insensitive) contain all three scroll ids. -/
def claimedWitherImpactFlag (itemName lore : String) (rootParsed : Option JVal) : Bool :=
  let k := canonicalItemKey itemName
  if ¬ (k = "hyperion" ∨ k = "astraea" ∨ k = "scylla" ∨ k = "valkyrie") then false
  else
    let loreLower : String := ⟨lore.toList.map Char.toLower⟩
    if containsSubstr loreLower "wither impact" then true
    else
      let extra := (findExtraAttributes rootParsed).getD (.jobj [])
      let vals : List String :=
        match extra with
        | .jobj fs =>
          fs.foldl (fun acc kv =>
            if containsSubstr (⟨kv.1.toList.map Char.toLower⟩ : String) "scroll" then
              match kv.2 with
              | .jarr es => acc ++ es.filterMap (fun e =>
                  match e with
                  | .jstr s => some s
                  | _ => none)
              | .jstr s => acc ++ [s]
              | _ => acc
            else acc) []
        | _ => []
      let lowVals := vals.map (fun s => (⟨s.toList.map Char.toLower⟩ : String))
      lowVals.contains "implosion_scroll" ∧ lowVals.contains "shadow_warp_scroll" ∧
        lowVals.contains "wither_shield_scroll"

/-- Spec wording of C8: `diff = max(|level_diff|, |tier_bucket_diff|)` with
buckets ranked `BB<B<A<AA<AAA` and `MISC → −1` (so a `MISC` bucket
participates with rank −1). -/
def claimedEnchantDiff (nameKey : String) (inputLvl saleLvl : Int) : Int :=
  max |saleLvl - inputLvl|
    |tierRank (tierFor nameKey saleLvl) - tierRank (tierFor nameKey inputLvl)|

/-- One-step query strengthening for C9: `Strengthens q q'` holds when `q'`
is `q` with one extra requirement — one more hard filter where none was set,
a stars10 requirement where none was set, or one more requested
enchantment. -/
inductive Strengthens : MatchQuery → MatchQuery → Prop where
  | addWI (q : MatchQuery) (h : q.filters.userWI = false) :
      Strengthens q { q with filters := { q.filters with userWI := true } }
  | addRarity (q : MatchQuery) (r : String) (h : q.filters.userRarity = "") :
      Strengthens q { q with filters := { q.filters with userRarity := r } }
  | addDye (q : MatchQuery) (d : String) (h : q.filters.userDye = "") :
      Strengthens q { q with filters := { q.filters with userDye := d } }
  | addSkin (q : MatchQuery) (d : String) (h : q.filters.userSkin = "") :
      Strengthens q { q with filters := { q.filters with userSkin := d } }
  | addPetSkin (q : MatchQuery) (d : String) (h : q.filters.userPetSkin = "") :
      Strengthens q { q with filters := { q.filters with userPetSkin := d } }
  | addPetLevel (q : MatchQuery) (n : Int) (h : q.filters.userPetLevel ≤ 0) :
      Strengthens q { q with filters := { q.filters with userPetLevel := n } }
  | addPetItem (q : MatchQuery) (d : String) (h : q.filters.userPetItem = "") :
      Strengthens q { q with filters := { q.filters with userPetItem := d } }
  | addStars (q : MatchQuery) (n : Int) (h : q.inputStars10 ≤ 0) :
      Strengthens q { q with inputStars10 := n }
  | addEnchant (q : MatchQuery) (e : String × Int) :
      Strengthens q { q with userEnchants := q.userEnchants ++ [e] }

/-! ## Small helpers used by the statements below -/

/-- The ranking of the loop outcome: `none` (`NONE`) < `some true`
(`PARTIAL`) < `some false` (`PERFECT`). -/
def optRank : Option Bool → Nat
  | none => 0
  | some true => 1
  | some false => 2

/-- First-token lookup on a token list (the list-level counterpart of
`sigGet`). -/
def partGet (parts : List (String × String)) (k : String) : Option String :=
  (parts.find? (fun kv => kv.1 = k)).map Prod.snd

/-- The normalized character list on which the star-cluster walk of
`coflnetStars10FromText` operates. -/
def coflnetNormChars (s : String) : List Char :=
  nfkcStr (normalizeWeirdDigitsChars s.toList)

/-- `count` successive page fetches starting at page `p`, each upserted on
success, stopping early at a failed fetch (the prefix of `syncOnce` work that
lands in the store before an abort). -/
def upsertPagesFrom (fetch : Nat → Option FeedPage) (now : Int) :
    Nat → Nat → IngestState → IngestState
  | 0, _, s => s
  | c + 1, p, s =>
    match fetch p with
    | none => s
    | some pg => upsertPagesFrom fetch now c (p + 1) (upsertAuctionsBulk pg.auctions now s)

/-! ## Theorems -/

/-- C1 (counterexample): with an empty candidate signature and a query with
no filter and no numeric requirement, `strictMatchQuality` returns `NONE`,
not the `PERFECT` prescribed by the claim (`if (!sig) return "NONE"` comes
before the unverifiable-filter handling). -/
theorem c1_counterexample :
    noRequirement ⟨[], 0, ⟨false, "", "", "", "", 0, ""⟩⟩ = true ∧
    strictMatchQuality ⟨[], 0, ⟨false, "", "", "", "", 0, ""⟩⟩ "" = MatchQuality.NONE ∧
    claimedEmptySigQuality ⟨[], 0, ⟨false, "", "", "", "", 0, ""⟩⟩ = MatchQuality.PERFECT := by
  decide

/-- C1 (amended): for every query, an empty candidate signature yields
`NONE`, regardless of which filters or numeric requirements were specified. -/
theorem c1_amended (q : MatchQuery) : strictMatchQuality q "" = MatchQuality.NONE := rfl

/-- C2 (counterexample): two signatures that disagree on their `stars10:`
token, neither empty and neither introducing `pet_item:` — the stored
signature keeps the existing value, while the claim prescribes the incoming
one. -/
theorem c2_counterexample :
    mergeSignature (some "tier:epic|stars10:5") (some "tier:epic|stars10:8") =
      some "tier:epic|stars10:5" ∧
    claimedMergeSignature (some "tier:epic|stars10:5") (some "tier:epic|stars10:8") =
      some "tier:epic|stars10:8" := by
  decide

/-- C2 (amended): both the auctions and the sales upsert store
`mergeSignature existing incoming`, and that rule keeps the existing
signature unless (a) it is NULL or empty, or (b) the incoming signature has a
`pet_item:` token and the existing one has none — there is no `stars10:`
clause. -/
theorem c2_amended :
    (∀ old new_ : AuctionRow,
      (applyAuctionUpsert old new_).signature = mergeSignature old.signature new_.signature) ∧
    (∀ old new_ : SaleRow,
      (applySaleUpsert old new_).signature = mergeSignature old.signature new_.signature) ∧
    (∀ ex inc : Option String,
      ((ex = none ∨ ex = some "") → mergeSignature ex inc = inc) ∧
      (ex ≠ none → ex ≠ some "" → likePetItem ex = false → likePetItem inc = true →
        mergeSignature ex inc = inc) ∧
      (ex ≠ none → ex ≠ some "" → (likePetItem ex = true ∨ likePetItem inc = false) →
        mergeSignature ex inc = ex)) := by
  refine ⟨fun _ _ => rfl, fun _ _ => rfl, fun ex inc => ⟨?_, ?_, ?_⟩⟩
  · intro h
    unfold mergeSignature
    rw [if_pos h]
  · intro h1 h2 h3 h4
    unfold mergeSignature
    rw [if_neg (fun h => h.elim h1 h2), if_pos (by simp [h3, h4])]
  · intro h1 h2 h3
    unfold mergeSignature
    rw [if_neg (fun h => h.elim h1 h2), if_neg]
    rcases h3 with h3 | h3 <;> simp [h3]

/-- C2 (witness for the amended theorem): a non-empty existing signature
without `pet_item:` is replaced by an incoming one that has it. -/
theorem c2_amended_witness :
    mergeSignature (some "tier:epic") (some "tier:epic|pet_item:tier_boost") =
      some "tier:epic|pet_item:tier_boost" :=
  (c2_amended.2.2 (some "tier:epic") (some "tier:epic|pet_item:tier_boost")).2.1
    (by decide) (by decide) (by decide) (by decide)

/-- Membership in a conditional singleton. -/
theorem memIfSingleton {α : Type} (a b : α) (c : Prop) [Decidable c] :
    (a ∈ (if c then [b] else [])) ↔ (c ∧ a = b) := by
  split <;> simp_all

/-- C7 (counterexample): a Hyperion whose lore announces Wither Impact but
whose payload has no scroll data — the claim prescribes the flag, the code
(which never consults the lore) does not set it. -/
theorem c7_counterexample :
    extractWitherImpactFlag "Hyperion" none = false ∧
    claimedWitherImpactFlag "Hyperion" "Ability: Wither Impact RIGHT CLICK" none = true := by
  decide

/-- C7 (amended): the `wither_impact:1` token is emitted iff the normalized
canonical key contains one of the four blade names as a substring and the
lowercased `JSON.stringify` of the whole unwrapped payload contains all three
scroll ids; the lore plays no role.  (The hypothesis rules out a synthetic
enchantment token spelled exactly `wither_impact:1`.) -/
theorem c7_amended (itemName lore tier : String) (root : Option JVal)
    (hcol : ("wither_impact", "1") ∉
      mapToEnchantTokens (extractEnchants ((findExtraAttributes root).getD (.jobj [])))) :
    (("wither_impact", "1") ∈ buildSignatureParts itemName lore tier root ↔
      (isBladeKey itemName = true ∧ stringifyScrollTest root = true)) := by
  have e1 : ("wither_impact" : String) ≠ "tier" := by decide
  have e2 : ("wither_impact" : String) ≠ "dstars" := by decide
  have e3 : ("wither_impact" : String) ≠ "mstars" := by decide
  have e4 : ("wither_impact" : String) ≠ "stars10" := by decide
  have e5 : ("wither_impact" : String) ≠ "pet_level" := by decide
  have e6 : ("wither_impact" : String) ≠ "dye" := by decide
  have e7 : ("wither_impact" : String) ≠ "skin" := by decide
  have e8 : ("wither_impact" : String) ≠ "petskin" := by decide
  have e9 : ("wither_impact" : String) ≠ "pet_item" := by decide
  simp only [buildSignatureParts, List.mem_append, memIfSingleton, Prod.mk.injEq,
    e1, e2, e3, e4, e5, e6, e7, e8, e9, false_and, and_false, or_false, false_or,
    extractWitherImpactFlag]
  rw [and_true]
  constructor
  · rintro (hw | hmem)
    · by_cases hb : isBladeKey itemName
      · rw [if_neg (by simp [hb])] at hw
        exact ⟨hb, hw⟩
      · rw [if_pos (by simp [hb])] at hw
        exact absurd hw (by simp)
    · exact absurd hmem hcol
  · rintro ⟨hb, hs⟩
    left
    rw [if_neg (by simp [hb])]
    exact hs

/-- C7 (witness for the amended theorem): a Hyperion with the three ability
scrolls in its payload gets the token. -/
theorem c7_amended_witness :
    ("wither_impact", "1") ∈ buildSignatureParts "Hyperion" "" ""
      (some (.jobj [("ExtraAttributes", .jobj [("ability_scroll",
        .jarr [.jstr "IMPLOSION_SCROLL", .jstr "SHADOW_WARP_SCROLL", .jstr "WITHER_SHIELD_SCROLL"])])])) :=
  (c7_amended "Hyperion" "" ""
      (some (.jobj [("ExtraAttributes", .jobj [("ability_scroll",
        .jarr [.jstr "IMPLOSION_SCROLL", .jstr "SHADOW_WARP_SCROLL", .jstr "WITHER_SHIELD_SCROLL"])])]))
      (by decide)).mpr ⟨by decide, by decide⟩

/-- Any digit found by `firstDigit15` is between 1 and 5. -/
theorem firstDigit15_bounds (l : List Char) (d : Nat) (h : firstDigit15 l = some d) :
    1 ≤ d ∧ d ≤ 5 := by
  induction l with
  | nil => simp [firstDigit15] at h
  | cons c rest ih =>
    simp only [firstDigit15] at h
    split at h
    · rename_i hc
      cases h
      have a1 : '1'.toNat ≤ c.toNat := hc.1
      have a2 : c.toNat ≤ '5'.toNat := hc.2
      have b1 : '1'.toNat = 49 := rfl
      have b2 : '5'.toNat = 53 := rfl
      have b3 : '0'.toNat = 48 := rfl
      omega
    · exact ih h

/-- Any Roman value found by `romanScan` is between 1 and 5. -/
theorem romanScan_bounds (l : List Char) (prev : Option Char) (d : Nat)
    (h : romanScan prev l = some d) : 1 ≤ d ∧ d ≤ 5 := by
  induction l generalizing prev with
  | nil => simp [romanScan] at h
  | cons c rest ih =>
    simp only [romanScan] at h
    split at h
    · split at h
      · cases h; omega
      · split at h
        · cases h; omega
        · split at h
          · cases h; omega
          · split at h
            · cases h; omega
            · split at h
              · cases h; omega
              · exact ih _ h
    · exact ih _ h

/-- The star-cluster walk never reports more than 10 stars. -/
theorem coflnetStars10Core_le (cs : List Char) : coflnetStars10Core cs ≤ 10 := by
  unfold coflnetStars10Core
  split
  · omega
  · dsimp only
    split
    · omega
    · split
      · omega
      · split
        · rename_i hlt
          omega
        · split
          · rename_i d hd
            have := firstDigit15_bounds _ _ hd
            omega
          · split
            · rename_i d hd
              have := romanScan_bounds _ _ _ hd
              omega
            · omega

theorem coflnet_le_ten (s : String) : coflnetStars10FromText s ≤ 10 :=
  coflnetStars10Core_le _

/-- `totalToSplit` on a total in `(5, 10]`. -/
theorem totalToSplit_high (t : Int) (h5 : 5 < t) (h10 : t ≤ 10) :
    totalToSplit t = (5, t - 5) := by
  unfold totalToSplit
  dsimp only
  rw [min_eq_right h10, max_eq_right (by omega), if_neg (by omega), if_neg (by omega)]

/-- C5 (counterexample): `dungeon_item_level` absent, `upgrade_level` 3, item
name showing ten stars — the resolution returns `(5, 5)` (five master stars
from the parsed total), not the `(5, 3)` (`u` master stars) the claim
prescribes. -/
theorem c5_counterexample :
    extraNum (JVal.jobj [("upgrade_level", .jnum 3)]) "dungeon_item_level" 0 10 = 0 ∧
    extraNum (JVal.jobj [("upgrade_level", .jnum 3)]) "upgrade_level" 0 10 = 3 ∧
    coflnetStars10FromText "Necron Blade ✪✪✪✪✪5" = 10 ∧
    extractStars (JVal.jobj [("upgrade_level", .jnum 3)]) "Necron Blade ✪✪✪✪✪5" "" = (5, 5) ∧
    ((5 : Int), (5 : Int)) ≠ ((5 : Int), (3 : Int)) := by
  decide

/-- C5 (amended): with `dungeon_item_level` clamping to 0 and
`upgrade_level = u ∈ [1,5]`: when the total parsed from name/lore is at least
6 the resolution returns `(5, total − 5)` (not `(5, u)`); otherwise it
returns `(u, 0)`. -/
theorem c5_amended (extra : JVal) (itemName lore : String) (u : Int)
    (hd : extraNum extra "dungeon_item_level" 0 10 = 0)
    (hu : extraNum extra "upgrade_level" 0 10 = u)
    (h1 : 1 ≤ u) (h5 : u ≤ 5) :
    (5 < max (coflnetStars10FromText itemName : Int) (coflnetStars10FromText lore : Int) →
      extractStars extra itemName lore =
        (5, max (coflnetStars10FromText itemName : Int) (coflnetStars10FromText lore : Int) - 5)) ∧
    (max (coflnetStars10FromText itemName : Int) (coflnetStars10FromText lore : Int) ≤ 5 →
      extractStars extra itemName lore = (u, 0)) := by
  have hn := coflnet_le_ten itemName
  have hl := coflnet_le_ten lore
  have h10 : max (coflnetStars10FromText itemName : Int) (coflnetStars10FromText lore : Int) ≤ 10 := by
    rw [max_le_iff]
    constructor <;> omega
  unfold extractStars
  rw [hd, hu]
  dsimp only
  rw [if_neg (by omega), if_neg (by omega), if_neg (by omega), if_neg (by omega),
    if_pos (by omega)]
  constructor
  · intro hgt
    rw [if_pos hgt, totalToSplit_high _ hgt h10]
    rw [if_neg (by simp)]
  · intro hle
    rw [if_neg (by omega), min_eq_right h5, max_eq_right (by omega)]

/-- C5 (witness for the amended theorem): upgrade 3 with a ten-star name
resolves to `(5, 5)`. -/
theorem c5_amended_witness :
    extractStars (JVal.jobj [("upgrade_level", .jnum 3)]) "Necron Blade ✪✪✪✪✪5" "" =
      (5, max (coflnetStars10FromText "Necron Blade ✪✪✪✪✪5" : Int) (coflnetStars10FromText "" : Int) - 5) :=
  (c5_amended (JVal.jobj [("upgrade_level", .jnum 3)]) "Necron Blade ✪✪✪✪✪5" "" 3
    (by decide) (by decide) (by decide) (by decide)).1 (by decide)

/-- C6 (counterexample): the input `"✪✪✪✪✪ abc 3"` counts exactly five stars;
the first token after the cluster is `abc`, so the claim prescribes 5 — but
the parser scans the whole 63-character window and returns 8 from the later
digit. -/
theorem c6_counterexample :
    findLastStarFrom (coflnetNormChars "✪✪✪✪✪ abc 3")
      ((coflnetNormChars "✪✪✪✪✪ abc 3").length - 80)
      (coflnetNormChars "✪✪✪✪✪ abc 3").length = some 4 ∧
    countStarsBack (coflnetNormChars "✪✪✪✪✪ abc 3") 5 0 12 = 5 ∧
    claimedTailTokenRule (afterWindow (coflnetNormChars "✪✪✪✪✪ abc 3") 4) = 5 ∧
    coflnetStars10FromText "✪✪✪✪✪ abc 3" = 8 := by
  decide

/-- C6 (amended): when the backward walk counts exactly five stars, the
result is decided by scanning the 63 characters after the cluster: `5 + d`
for the first ASCII digit `d ∈ [1,5]` anywhere in that window (not merely in
the first token), else `5 + v` for the first word-bounded Roman numeral
`i`–`v`, else 5. -/
theorem c6_amended (s : String) (j : Nat)
    (hj : findLastStarFrom (coflnetNormChars s) ((coflnetNormChars s).length - 80)
      (coflnetNormChars s).length = some j)
    (hcount : countStarsBack (coflnetNormChars s) (j + 1) 0 12 = 5) :
    (coflnetStars10FromText s =
      match firstDigit15 (afterWindow (coflnetNormChars s) j) with
      | some d => 5 + d
      | none =>
        match romanScan none (afterWindow (coflnetNormChars s) j) with
        | some d => 5 + d
        | none => 5) ∧
    (∀ d, firstDigit15 (afterWindow (coflnetNormChars s) j) = some d →
      coflnetStars10FromText s = 5 + d) := by
  have hne : coflnetNormChars s ≠ [] := by
    intro h
    rw [h] at hj
    simp [findLastStarFrom] at hj
  have key : coflnetStars10FromText s =
      match firstDigit15 (afterWindow (coflnetNormChars s) j) with
      | some d => 5 + d
      | none =>
        match romanScan none (afterWindow (coflnetNormChars s) j) with
        | some d => 5 + d
        | none => 5 := by
    show coflnetStars10Core (coflnetNormChars s) = _
    unfold coflnetStars10Core
    rw [if_neg hne]
    dsimp only
    rw [hj]
    dsimp only
    rw [hcount]
    rw [if_neg (by omega), if_neg (by omega)]
  refine ⟨key, fun d hd => ?_⟩
  rw [key, hd]

/-- C6 (witness for the amended theorem): on `"✪✪✪✪✪ abc 3"` the window scan
finds the digit 3 and the parser returns 8. -/
theorem c6_amended_witness : coflnetStars10FromText "✪✪✪✪✪ abc 3" = 5 + 3 :=
  (c6_amended "✪✪✪✪✪ abc 3" 4 (by decide) (by decide)).2 3 (by decide)
theorem partGet_nil (k : String) : partGet [] k = none := rfl

theorem partGet_cons (x : String × String) (l : List (String × String)) (k : String) :
    partGet (x :: l) k = if x.1 = k then some x.2 else partGet l k := by
  by_cases h : x.1 = k <;> simp [partGet, List.find?_cons, h]

theorem partGet_append_none {l1 l2 : List (String × String)} {k : String}
    (h : partGet l1 k = none) : partGet (l1 ++ l2) k = partGet l2 k := by
  induction l1 with
  | nil => rfl
  | cons x rest ih =>
    rw [partGet_cons] at h
    rw [List.cons_append, partGet_cons]
    split at h
    · exact absurd h (by simp)
    · rename_i hx
      rw [if_neg hx]
      exact ih h

theorem partGet_append_some {l1 l2 : List (String × String)} {k : String} {v : String}
    (h : partGet l1 k = some v) : partGet (l1 ++ l2) k = some v := by
  induction l1 with
  | nil => simp [partGet] at h
  | cons x rest ih =>
    rw [partGet_cons] at h
    rw [List.cons_append, partGet_cons]
    split at h
    · rename_i hx
      rw [if_pos hx]
      exact h
    · rename_i hx
      rw [if_neg hx]
      exact ih h

theorem partGet_ite_ne {c : Prop} [Decidable c] {k' v k} (h : k' ≠ k) :
    partGet (if c then [(k', v)] else []) k = none := by
  split
  · rw [partGet_cons, if_neg h, partGet_nil]
  · rfl

theorem partGet_ite_eq {c : Prop} [Decidable c] (k v : String) :
    partGet (if c then [(k, v)] else []) k = if c then some v else none := by
  split
  · rw [partGet_cons, if_pos rfl]
  · rfl

theorem partGet_eq_none_of {l : List (String × String)} {k : String}
    (h : ∀ kv ∈ l, kv.1 ≠ k) : partGet l k = none := by
  induction l with
  | nil => rfl
  | cons x rest ih =>
    rw [partGet_cons, if_neg (h x (by simp))]
    exact ih (fun kv hm => h kv (by simp [hm]))

/-- C4: the star invariants of `buildSignature`.  For every input (the parse
result quantified over all dynamic values), there are `d`, `m`, `s10` with
`d ∈ [0,5]`, `m ∈ [0,5]`, `s10 ∈ [0,10]`, `s10 = d + m` and `m > 0 → d = 5`,
such that the `dstars`/`mstars`/`stars10` tokens of the signature are exactly
these values when non-zero and absent when zero.  In particular an `mstars:`
token with positive value forces a `dstars:5` token, and whenever any star
token is present the `stars10` value equals dstars + mstars (absent tokens
counting 0).  The hypothesis excludes enchantment names that collide with
the three reserved star keys (spec §3/§9 forbids such collisions). -/
theorem c4_star_invariants (itemName lore tier : String) (root : Option JVal)
    (hcol : ∀ kv ∈ mapToEnchantTokens (extractEnchants ((findExtraAttributes root).getD (.jobj []))),
      kv.1 ≠ "dstars" ∧ kv.1 ≠ "mstars" ∧ kv.1 ≠ "stars10") :
    ∃ d m s10 : Int, 0 ≤ d ∧ d ≤ 5 ∧ 0 ≤ m ∧ m ≤ 5 ∧ 0 ≤ s10 ∧ s10 ≤ 10 ∧
      s10 = d + m ∧ (0 < m → d = 5) ∧
      partGet (buildSignatureParts itemName lore tier root) "dstars" =
        (if d = 0 then none else some (toString d)) ∧
      partGet (buildSignatureParts itemName lore tier root) "mstars" =
        (if m = 0 then none else some (toString m)) ∧
      partGet (buildSignatureParts itemName lore tier root) "stars10" =
        (if s10 = 0 then none else some (toString s10)) := by
  set extra := (findExtraAttributes root).getD (JVal.jobj []) with hextra
  set ds := extractStars extra itemName lore with hds
  set dst0 : Int := max 0 (min 5 ds.1) with hdst0
  set mst : Int := max 0 (min 5 ds.2) with hmst
  set dst : Int := if 0 < mst ∧ dst0 ≠ 5 then 5 else dst0 with hdst
  have hdst0B : 0 ≤ dst0 ∧ dst0 ≤ 5 :=
    ⟨le_max_left 0 _, max_le (by norm_num) (min_le_left 5 _)⟩
  have hmstB : 0 ≤ mst ∧ mst ≤ 5 :=
    ⟨le_max_left 0 _, max_le (by norm_num) (min_le_left 5 _)⟩
  have hdstB : 0 ≤ dst ∧ dst ≤ 5 := by
    rw [hdst]
    split
    · constructor <;> norm_num
    · exact hdst0B
  have hsum : max 0 (min 10 (dst + mst)) = dst + mst := by
    rw [min_eq_right (by omega), max_eq_right (by omega)]
  have hb : buildSignatureParts itemName lore tier root =
      (if (⟨wsToUnderscore (normKey tier).toList⟩ : String) ≠ "" then
        [("tier", (⟨wsToUnderscore (normKey tier).toList⟩ : String))] else []) ++
      (if dst ≠ 0 then [("dstars", toString dst)] else []) ++
      (if mst ≠ 0 then [("mstars", toString mst)] else []) ++
      (if max 0 (min 10 (dst + mst)) ≠ 0 then [("stars10", toString (max 0 (min 10 (dst + mst))))] else []) ++
      (if extractWitherImpactFlag itemName root then [("wither_impact", "1")] else []) ++
      (if extractPetLevel extra itemName ≠ 0 then [("pet_level", toString (extractPetLevel extra itemName))] else []) ++
      (if (extractCosmetics extra).1 ≠ "" ∧ (extractCosmetics extra).1 ≠ "none" then [("dye", (extractCosmetics extra).1)] else []) ++
      (if (extractCosmetics extra).2.1 ≠ "" ∧ (extractCosmetics extra).2.1 ≠ "none" then [("skin", (extractCosmetics extra).2.1)] else []) ++
      (if (extractCosmetics extra).2.2 ≠ "" ∧ (extractCosmetics extra).2.2 ≠ "none" then [("petskin", (extractCosmetics extra).2.2)] else []) ++
      (if (extractPetHeldItem extra lore).2 ≠ "" then [("pet_item", (extractPetHeldItem extra lore).2)] else []) ++
      mapToEnchantTokens (extractEnchants extra) := rfl
  rw [hsum] at hb
  have hmd : 0 < mst → dst = 5 := by
    intro hm
    rw [hdst]
    split
    · rfl
    · rename_i hcond
      rcases not_and_or.mp hcond with h | h
      · exact absurd hm h
      · exact not_not.mp h
  have skipT : partGet (buildSignatureParts itemName lore tier root) "dstars" =
      (if dst = 0 then none else some (toString dst)) := by
    rw [hb]
    simp only [List.append_assoc]
    rw [partGet_append_none (partGet_ite_ne (by decide))]
    by_cases hd0 : dst = 0
    · rw [partGet_append_none (by rw [partGet_ite_eq, if_neg (by simp [hd0])]),
        partGet_append_none (partGet_ite_ne (by decide)),
        partGet_append_none (partGet_ite_ne (by decide)),
        partGet_append_none (partGet_ite_ne (by decide)),
        partGet_append_none (partGet_ite_ne (by decide)),
        partGet_append_none (partGet_ite_ne (by decide)),
        partGet_append_none (partGet_ite_ne (by decide)),
        partGet_append_none (partGet_ite_ne (by decide)),
        partGet_append_none (partGet_ite_ne (by decide)),
        partGet_eq_none_of (fun kv hm => (hcol kv hm).1), if_pos hd0]
    · rw [partGet_append_some (by rw [partGet_ite_eq, if_pos hd0]), if_neg hd0]
  have skipM : partGet (buildSignatureParts itemName lore tier root) "mstars" =
      (if mst = 0 then none else some (toString mst)) := by
    rw [hb]
    simp only [List.append_assoc]
    rw [partGet_append_none (partGet_ite_ne (by decide)),
      partGet_append_none (partGet_ite_ne (by decide))]
    by_cases hm0 : mst = 0
    · rw [partGet_append_none (by rw [partGet_ite_eq, if_neg (by simp [hm0])]),
        partGet_append_none (partGet_ite_ne (by decide)),
        partGet_append_none (partGet_ite_ne (by decide)),
        partGet_append_none (partGet_ite_ne (by decide)),
        partGet_append_none (partGet_ite_ne (by decide)),
        partGet_append_none (partGet_ite_ne (by decide)),
        partGet_append_none (partGet_ite_ne (by decide)),
        partGet_append_none (partGet_ite_ne (by decide)),
        partGet_eq_none_of (fun kv hm => (hcol kv hm).2.1), if_pos hm0]
    · rw [partGet_append_some (by rw [partGet_ite_eq, if_pos hm0]), if_neg hm0]
  have skipS : partGet (buildSignatureParts itemName lore tier root) "stars10" =
      (if dst + mst = 0 then none else some (toString (dst + mst))) := by
    rw [hb]
    simp only [List.append_assoc]
    rw [partGet_append_none (partGet_ite_ne (by decide)),
      partGet_append_none (partGet_ite_ne (by decide)),
      partGet_append_none (partGet_ite_ne (by decide))]
    by_cases hs0 : dst + mst = 0
    · rw [partGet_append_none (by rw [partGet_ite_eq, if_neg (by simp [hs0])]),
        partGet_append_none (partGet_ite_ne (by decide)),
        partGet_append_none (partGet_ite_ne (by decide)),
        partGet_append_none (partGet_ite_ne (by decide)),
        partGet_append_none (partGet_ite_ne (by decide)),
        partGet_append_none (partGet_ite_ne (by decide)),
        partGet_append_none (partGet_ite_ne (by decide)),
        partGet_eq_none_of (fun kv hm => (hcol kv hm).2.2), if_pos hs0]
    · rw [partGet_append_some (by rw [partGet_ite_eq, if_pos hs0]), if_neg hs0]
  exact ⟨dst, mst, dst + mst, hdstB.1, hdstB.2, hmstB.1, hmstB.2, by omega, by omega,
    rfl, hmd, skipT, skipM, skipS⟩

/-- C4 (witness): a payload with `dungeon_item_level = 8` gets
`dstars:5|mstars:3|stars10:8`. -/
theorem c4_star_invariants_witness :
    ∃ d m s10 : Int, 0 ≤ d ∧ d ≤ 5 ∧ 0 ≤ m ∧ m ≤ 5 ∧ 0 ≤ s10 ∧ s10 ≤ 10 ∧
      s10 = d + m ∧ (0 < m → d = 5) ∧
      partGet (buildSignatureParts "x" "" ""
        (some (.jobj [("ExtraAttributes", .jobj [("dungeon_item_level", .jnum 8)])]))) "dstars" =
        (if d = 0 then none else some (toString d)) ∧
      partGet (buildSignatureParts "x" "" ""
        (some (.jobj [("ExtraAttributes", .jobj [("dungeon_item_level", .jnum 8)])]))) "mstars" =
        (if m = 0 then none else some (toString m)) ∧
      partGet (buildSignatureParts "x" "" ""
        (some (.jobj [("ExtraAttributes", .jobj [("dungeon_item_level", .jnum 8)])]))) "stars10" =
        (if s10 = 0 then none else some (toString s10)) :=
  c4_star_invariants "x" "" ""
    (some (.jobj [("ExtraAttributes", .jobj [("dungeon_item_level", .jnum 8)])]))
    (by decide)
theorem enchantLoop_append (m l1 l2 : List (String × Int)) (p : Bool) :
    enchantLoop m (l1 ++ l2) p =
      match enchantLoop m l1 p with
      | none => none
      | some b => enchantLoop m l2 b := by
  induction l1 generalizing p with
  | nil => rfl
  | cons e rest ih =>
    obtain ⟨k, v⟩ := e
    simp only [List.cons_append, enchantLoop]
    by_cases h1 : v ≤ 0
    · rw [if_pos h1, if_pos h1]
      exact ih p
    · rw [if_neg h1, if_neg h1]
      by_cases h2 : lookupLevel m k = 0
      · rw [if_pos h2, if_pos h2]
      · rw [if_neg h2, if_neg h2]
        by_cases h3 : enchantDiff k v (lookupLevel m k) = 1
        · rw [if_pos h3, if_pos h3]
          exact ih true
        · rw [if_neg h3, if_neg h3]
          by_cases h4 : 2 ≤ enchantDiff k v (lookupLevel m k)
          · rw [if_pos h4, if_pos h4]
          · rw [if_neg h4, if_neg h4]
            exact ih p

theorem enchantLoop_none_congr (m l : List (String × Int)) (p q : Bool)
    (h : enchantLoop m l p = none) : enchantLoop m l q = none := by
  induction l generalizing p q with
  | nil => simp [enchantLoop] at h
  | cons e rest ih =>
    obtain ⟨k, v⟩ := e
    simp only [enchantLoop] at h ⊢
    by_cases h1 : v ≤ 0
    · rw [if_pos h1] at h ⊢
      exact ih p q h
    · rw [if_neg h1] at h ⊢
      by_cases h2 : lookupLevel m k = 0
      · rw [if_pos h2]
      · rw [if_neg h2] at h ⊢
        by_cases h3 : enchantDiff k v (lookupLevel m k) = 1
        · rw [if_pos h3] at h ⊢
          exact ih true true h
        · rw [if_neg h3] at h ⊢
          by_cases h4 : 2 ≤ enchantDiff k v (lookupLevel m k)
          · rw [if_pos h4]
          · rw [if_neg h4] at h ⊢
            exact ih p q h

theorem enchantLoop_true_out (m l : List (String × Int)) (b : Bool)
    (h : enchantLoop m l true = some b) : b = true := by
  induction l with
  | nil => cases h; rfl
  | cons e rest ih =>
    obtain ⟨k, v⟩ := e
    simp only [enchantLoop] at h
    by_cases h1 : v ≤ 0
    · rw [if_pos h1] at h
      exact ih h
    · rw [if_neg h1] at h
      by_cases h2 : lookupLevel m k = 0
      · rw [if_pos h2] at h
        cases h
      · rw [if_neg h2] at h
        by_cases h3 : enchantDiff k v (lookupLevel m k) = 1
        · rw [if_pos h3] at h
          exact ih h
        · rw [if_neg h3] at h
          by_cases h4 : 2 ≤ enchantDiff k v (lookupLevel m k)
          · rw [if_pos h4] at h
            cases h
          · rw [if_neg h4] at h
            exact ih h
theorem rank_qualOfOpt (o : Option Bool) : (qualOfOpt o).rank = optRank o := by
  match o with
  | none => rfl
  | some true => rfl
  | some false => rfl

theorem optRank_loop_true_le (m l : List (String × Int)) :
    optRank (enchantLoop m l true) ≤ optRank (enchantLoop m l false) := by
  cases hT : enchantLoop m l true with
  | none => exact Nat.zero_le _
  | some b' =>
    have hb := enchantLoop_true_out m l b' hT
    subst hb
    cases hF : enchantLoop m l false with
    | none =>
      rw [enchantLoop_none_congr m l false true hF] at hT
      cases hT
    | some b => cases b <;> decide

theorem optRank_loop_single_le (m : List (String × Int)) (e : String × Int) (b : Bool) :
    optRank (enchantLoop m [e] b) ≤ optRank (some b) := by
  obtain ⟨k, v⟩ := e
  simp only [enchantLoop]
  by_cases h1 : v ≤ 0
  · rw [if_pos h1]
  · rw [if_neg h1]
    by_cases h2 : lookupLevel m k = 0
    · rw [if_pos h2]
      exact Nat.zero_le _
    · rw [if_neg h2]
      by_cases h3 : enchantDiff k v (lookupLevel m k) = 1
      · rw [if_pos h3]
        cases b <;> decide
      · rw [if_neg h3]
        by_cases h4 : 2 ≤ enchantDiff k v (lookupLevel m k)
        · rw [if_pos h4]
          exact Nat.zero_le _
        · rw [if_neg h4]

theorem applyOk_true_iff (sig : String) (f : Filters) (hs : sig ≠ "") :
    (applyVerifiedFiltersOrNull sig f).1 = true ↔
      (¬(f.userWI ∧ ¬ sigWI sig) ∧
       ¬(f.userRarity ≠ "" ∧ sigTier sig ≠ f.userRarity) ∧
       ¬(f.userDye ≠ "" ∧ f.userDye ≠ "none" ∧ sigDye sig ≠ f.userDye) ∧
       ¬(f.userSkin ≠ "" ∧ f.userSkin ≠ "none" ∧ sigSkin sig ≠ f.userSkin) ∧
       ¬(f.userPetSkin ≠ "" ∧ f.userPetSkin ≠ "none" ∧ sigPetSkin sig ≠ f.userPetSkin) ∧
       ¬(0 < f.userPetLevel ∧ sigPetLevel sig < f.userPetLevel) ∧
       ¬(f.userPetItem ≠ "" ∧ f.userPetItem ≠ "none" ∧ sigPetItem sig ≠ f.userPetItem)) := by
  unfold applyVerifiedFiltersOrNull
  rw [if_neg hs]
  split_ifs with h1 h2 h3 h4 h5 h6 h7 <;> simp_all

theorem rank_le_of_filters (q : MatchQuery) (g : Filters) (sig : String)
    (himp : sig ≠ "" → (applyVerifiedFiltersOrNull sig g).1 = true →
      (applyVerifiedFiltersOrNull sig q.filters).1 = true) :
    (strictMatchQuality ⟨q.userEnchants, q.inputStars10, g⟩ sig).rank ≤
      (strictMatchQuality q sig).rank := by
  by_cases hs : sig = ""
  · subst hs
    exact Nat.le_refl _
  · unfold strictMatchQuality
    rw [if_neg hs, if_neg hs]
    by_cases hok : (applyVerifiedFiltersOrNull sig g).1 = true
    · rw [if_neg (by simp [hok]), if_neg (by simp [himp hs hok])]
      exact Nat.le_refl _
    · rw [if_pos (by simpa using hok)]
      exact Nat.zero_le _

/-- C9: the matcher is monotone in filter strictness — adding one more
requirement (an extra hard filter, a stars10 requirement where none was set,
or an extra requested enchantment) never improves the result in the order
`NONE < PARTIAL < PERFECT`. -/
theorem c9_monotone (q q' : MatchQuery) (hst : Strengthens q q') (sig : String) :
    (strictMatchQuality q' sig).rank ≤ (strictMatchQuality q sig).rank := by
  cases hst with
  | addWI hf =>
    refine rank_le_of_filters q _ sig (fun hs hok => ?_)
    rw [applyOk_true_iff sig _ hs] at hok ⊢
    exact ⟨by simp [hf], hok.2⟩
  | addRarity r hf =>
    refine rank_le_of_filters q _ sig (fun hs hok => ?_)
    rw [applyOk_true_iff sig _ hs] at hok ⊢
    exact ⟨hok.1, by simp [hf], hok.2.2⟩
  | addDye d hf =>
    refine rank_le_of_filters q _ sig (fun hs hok => ?_)
    rw [applyOk_true_iff sig _ hs] at hok ⊢
    exact ⟨hok.1, hok.2.1, by simp [hf], hok.2.2.2⟩
  | addSkin d hf =>
    refine rank_le_of_filters q _ sig (fun hs hok => ?_)
    rw [applyOk_true_iff sig _ hs] at hok ⊢
    exact ⟨hok.1, hok.2.1, hok.2.2.1, by simp [hf], hok.2.2.2.2⟩
  | addPetSkin d hf =>
    refine rank_le_of_filters q _ sig (fun hs hok => ?_)
    rw [applyOk_true_iff sig _ hs] at hok ⊢
    exact ⟨hok.1, hok.2.1, hok.2.2.1, hok.2.2.2.1, by simp [hf], hok.2.2.2.2.2⟩
  | addPetLevel n hf =>
    refine rank_le_of_filters q _ sig (fun hs hok => ?_)
    rw [applyOk_true_iff sig _ hs] at hok ⊢
    exact ⟨hok.1, hok.2.1, hok.2.2.1, hok.2.2.2.1, hok.2.2.2.2.1,
      fun hc => absurd hc.1 (not_lt.mpr hf), hok.2.2.2.2.2.2⟩
  | addPetItem d hf =>
    refine rank_le_of_filters q _ sig (fun hs hok => ?_)
    rw [applyOk_true_iff sig _ hs] at hok ⊢
    exact ⟨hok.1, hok.2.1, hok.2.2.1, hok.2.2.2.1, hok.2.2.2.2.1, hok.2.2.2.2.2.1,
      by simp [hf]⟩
  | addStars n hf =>
    by_cases hs : sig = ""
    · subst hs
      exact le_of_eq rfl
    · unfold strictMatchQuality
      rw [if_neg hs, if_neg hs]
      by_cases hok : (applyVerifiedFiltersOrNull sig q.filters).1 = true
      · rw [if_neg (by simp [hok]), if_neg (by simp [hok])]
        have hq : starsStepOf q sig = some false := by
          unfold starsStepOf
          rw [if_neg (by omega)]
        rw [hq]
        cases hq' : starsStepOf { q with inputStars10 := n } sig with
        | none => exact Nat.zero_le _
        | some p =>
          cases p with
          | false => exact Nat.le_refl _
          | true =>
            calc (qualOfOpt (enchantLoop (sigEnchantMap sig) q.userEnchants true)).rank
                = optRank (enchantLoop (sigEnchantMap sig) q.userEnchants true) :=
                  rank_qualOfOpt _
              _ ≤ optRank (enchantLoop (sigEnchantMap sig) q.userEnchants false) :=
                  optRank_loop_true_le _ _
              _ = (qualOfOpt (enchantLoop (sigEnchantMap sig) q.userEnchants false)).rank :=
                  (rank_qualOfOpt _).symm
      · rw [if_pos (by simpa using hok), if_pos (by simpa using hok)]
  | addEnchant e =>
    by_cases hs : sig = ""
    · subst hs
      exact le_of_eq rfl
    · unfold strictMatchQuality
      rw [if_neg hs, if_neg hs]
      by_cases hok : (applyVerifiedFiltersOrNull sig q.filters).1 = true
      · rw [if_neg (by simp [hok]), if_neg (by simp [hok])]
        have hsame : starsStepOf { q with userEnchants := q.userEnchants ++ [e] } sig =
            starsStepOf q sig := rfl
        rw [hsame]
        cases hss : starsStepOf q sig with
        | none => exact Nat.le_refl _
        | some p =>
          rw [rank_qualOfOpt, rank_qualOfOpt,
            enchantLoop_append (sigEnchantMap sig) q.userEnchants [e] p]
          cases hl : enchantLoop (sigEnchantMap sig) q.userEnchants p with
          | none => exact Nat.le_refl _
          | some b => exact optRank_loop_single_le _ _ _
      · rw [if_pos (by simpa using hok), if_pos (by simpa using hok)]

/-- C9 (witness): adding a stars10 requirement to the empty query does not
improve the quality on a five-star candidate. -/
theorem c9_monotone_witness :
    (strictMatchQuality ⟨[], 10, ⟨false, "", "", "", "", 0, ""⟩⟩ "dstars:5").rank ≤
      (strictMatchQuality ⟨[], 0, ⟨false, "", "", "", "", 0, ""⟩⟩ "dstars:5").rank :=
  c9_monotone ⟨[], 0, ⟨false, "", "", "", "", 0, ""⟩⟩ _
    (Strengthens.addStars ⟨[], 0, ⟨false, "", "", "", "", 0, ""⟩⟩ 10 (by decide)) "dstars:5"
theorem enchantDiff_nonneg (k : String) (a b : Int) : 0 ≤ enchantDiff k a b := by
  unfold enchantDiff
  dsimp only
  exact le_max_of_le_left (abs_nonneg _)

theorem enchantLoop_none_of_missing (m l : List (String × Int)) (p : Bool)
    (kv : String × Int) (hmem : kv ∈ l) (hpos : 0 < kv.2)
    (hzero : lookupLevel m kv.1 = 0) : enchantLoop m l p = none := by
  induction l generalizing p with
  | nil => cases hmem
  | cons e rest ih =>
    obtain ⟨k, v⟩ := e
    simp only [enchantLoop]
    rcases List.mem_cons.mp hmem with he | he
    · subst he
      have hv : 0 < v := hpos
      have hz : lookupLevel m k = 0 := hzero
      rw [if_neg (by omega), if_pos hz]
    · by_cases h1 : v ≤ 0
      · rw [if_pos h1]
        exact ih p he
      · rw [if_neg h1]
        by_cases h2 : lookupLevel m k = 0
        · rw [if_pos h2]
        · rw [if_neg h2]
          by_cases h3 : enchantDiff k v (lookupLevel m k) = 1
          · rw [if_pos h3]
            exact ih true he
          · rw [if_neg h3]
            by_cases h4 : 2 ≤ enchantDiff k v (lookupLevel m k)
            · rw [if_pos h4]
            · rw [if_neg h4]
              exact ih p he

theorem enchantLoop_none_of_far (m l : List (String × Int)) (p : Bool)
    (kv : String × Int) (hmem : kv ∈ l) (hpos : 0 < kv.2)
    (hnz : lookupLevel m kv.1 ≠ 0)
    (hfar : 2 ≤ enchantDiff kv.1 kv.2 (lookupLevel m kv.1)) :
    enchantLoop m l p = none := by
  induction l generalizing p with
  | nil => cases hmem
  | cons e rest ih =>
    obtain ⟨k, v⟩ := e
    simp only [enchantLoop]
    rcases List.mem_cons.mp hmem with he | he
    · subst he
      have hv : 0 < v := hpos
      have hz : lookupLevel m k ≠ 0 := hnz
      have hf : 2 ≤ enchantDiff k v (lookupLevel m k) := hfar
      rw [if_neg (by omega), if_neg hz, if_neg (by omega), if_pos hf]
    · by_cases h1 : v ≤ 0
      · rw [if_pos h1]
        exact ih p he
      · rw [if_neg h1]
        by_cases h2 : lookupLevel m k = 0
        · rw [if_pos h2]
        · rw [if_neg h2]
          by_cases h3 : enchantDiff k v (lookupLevel m k) = 1
          · rw [if_pos h3]
            exact ih true he
          · rw [if_neg h3]
            by_cases h4 : 2 ≤ enchantDiff k v (lookupLevel m k)
            · rw [if_pos h4]
            · rw [if_neg h4]
              exact ih p he

theorem enchantLoop_some_false (m l : List (String × Int)) (p : Bool)
    (h : enchantLoop m l p = some false) :
    ∀ kv ∈ l, 0 < kv.2 →
      lookupLevel m kv.1 ≠ 0 ∧ enchantDiff kv.1 kv.2 (lookupLevel m kv.1) = 0 := by
  induction l generalizing p with
  | nil => intro kv hmem; cases hmem
  | cons e rest ih =>
    obtain ⟨k, v⟩ := e
    simp only [enchantLoop] at h
    intro kv hmem hpos
    by_cases h1 : v ≤ 0
    · rw [if_pos h1] at h
      rcases List.mem_cons.mp hmem with he | he
      · subst he
        exact absurd hpos (by omega)
      · exact ih p h kv he hpos
    · rw [if_neg h1] at h
      by_cases h2 : lookupLevel m k = 0
      · rw [if_pos h2] at h
        cases h
      · rw [if_neg h2] at h
        by_cases h3 : enchantDiff k v (lookupLevel m k) = 1
        · rw [if_pos h3] at h
          exact absurd (enchantLoop_true_out m rest false h) (by decide)
        · rw [if_neg h3] at h
          by_cases h4 : 2 ≤ enchantDiff k v (lookupLevel m k)
          · rw [if_pos h4] at h
            cases h
          · rw [if_neg h4] at h
            rcases List.mem_cons.mp hmem with he | he
            · subst he
              have hd := enchantDiff_nonneg k v (lookupLevel m k)
              refine ⟨h2, ?_⟩
              show enchantDiff k v (lookupLevel m k) = 0
              omega
            · exact ih p h kv he hpos

theorem enchantLoop_some_true_src (m l : List (String × Int))
    (h : enchantLoop m l false = some true) :
    ∃ kv ∈ l, 0 < kv.2 ∧ enchantDiff kv.1 kv.2 (lookupLevel m kv.1) = 1 := by
  induction l with
  | nil => cases h
  | cons e rest ih =>
    obtain ⟨k, v⟩ := e
    simp only [enchantLoop] at h
    by_cases h1 : v ≤ 0
    · rw [if_pos h1] at h
      obtain ⟨kv, hmem, hrest⟩ := ih h
      exact ⟨kv, List.mem_cons_of_mem _ hmem, hrest⟩
    · rw [if_neg h1] at h
      by_cases h2 : lookupLevel m k = 0
      · rw [if_pos h2] at h
        cases h
      · rw [if_neg h2] at h
        by_cases h3 : enchantDiff k v (lookupLevel m k) = 1
        · exact ⟨(k, v), List.mem_cons_self _ _, by omega, h3⟩
        · rw [if_neg h3] at h
          by_cases h4 : 2 ≤ enchantDiff k v (lookupLevel m k)
          · rw [if_pos h4] at h
            cases h
          · rw [if_neg h4] at h
            obtain ⟨kv, hmem, hrest⟩ := ih h
            exact ⟨kv, List.mem_cons_of_mem _ hmem, hrest⟩


set_option maxRecDepth 100000 in
/-- C8 (counterexample): for `chimera` requested at level 6 against a stored
level 5, the level difference is 1 but `tierFor chimera 6 = MISC`; the code
ignores the tier component (diff 1, `PARTIAL`), while the claim's formula
with `MISC → −1` gives `max(1, |4 − (−1)|) = 5` and so would demand `NONE`. -/
theorem c8_counterexample :
    tierFor "chimera" 6 = "MISC" ∧
    tierFor "chimera" 5 = "AAA" ∧
    enchantDiff "chimera" 6 5 = 1 ∧
    claimedEnchantDiff "chimera" 6 5 = 5 ∧
    strictMatchQuality ⟨[("chimera", 6)], 0, ⟨false, "", "", "", "", 0, ""⟩⟩ "chimera:5" =
      MatchQuality.PARTIAL := by
  decide

/-- C8 (amended): per requested enchantment the matcher behaves as claimed —
a missing or zero stored level forces `NONE`, a per-enchantment difference of
at least 2 forces `NONE`, `PERFECT` requires every requested enchantment
present with difference 0, and `PARTIAL` requires a stars difference of 1 or
some enchantment difference of exactly 1 — with `enchantDiff` counting the
tier-bucket component only when both buckets are non-`MISC` (a `MISC` bucket
contributes 0, not its rank −1). -/
theorem c8_amended (q : MatchQuery) (sig : String) :
    ((∃ kv ∈ q.userEnchants, 0 < kv.2 ∧ lookupLevel (sigEnchantMap sig) kv.1 = 0) →
      strictMatchQuality q sig = .NONE) ∧
    ((∃ kv ∈ q.userEnchants, 0 < kv.2 ∧ lookupLevel (sigEnchantMap sig) kv.1 ≠ 0 ∧
        2 ≤ enchantDiff kv.1 kv.2 (lookupLevel (sigEnchantMap sig) kv.1)) →
      strictMatchQuality q sig = .NONE) ∧
    (strictMatchQuality q sig = .PERFECT →
      ∀ kv ∈ q.userEnchants, 0 < kv.2 →
        lookupLevel (sigEnchantMap sig) kv.1 ≠ 0 ∧
        enchantDiff kv.1 kv.2 (lookupLevel (sigEnchantMap sig) kv.1) = 0) ∧
    (strictMatchQuality q sig = .PARTIAL →
      (0 < q.inputStars10 ∧ |sigStars10 sig - q.inputStars10| = 1) ∨
      (∃ kv ∈ q.userEnchants, 0 < kv.2 ∧
        enchantDiff kv.1 kv.2 (lookupLevel (sigEnchantMap sig) kv.1) = 1)) := by
  by_cases hs : sig = ""
  · subst hs
    refine ⟨fun _ => rfl, fun _ => rfl, fun h => ?_, fun h => ?_⟩
    · exact absurd h (by simp [strictMatchQuality])
    · exact absurd h (by simp [strictMatchQuality])
  · unfold strictMatchQuality
    rw [if_neg hs]
    by_cases hok : (applyVerifiedFiltersOrNull sig q.filters).1 = true
    · rw [if_neg (by simp [hok])]
      cases hss : starsStepOf q sig with
      | none =>
        refine ⟨fun _ => rfl, fun _ => rfl, fun h => ?_, fun h => ?_⟩
        · exact absurd h (by simp)
        · exact absurd h (by simp)
      | some p =>
        dsimp only
        refine ⟨?_, ?_, ?_, ?_⟩
        · rintro ⟨kv, hmem, hpos, hzero⟩
          rw [enchantLoop_none_of_missing (sigEnchantMap sig) q.userEnchants p kv hmem hpos hzero]
          rfl
        · rintro ⟨kv, hmem, hpos, hnz, hfar⟩
          rw [enchantLoop_none_of_far (sigEnchantMap sig) q.userEnchants p kv hmem hpos hnz hfar]
          rfl
        · intro h
          cases hl : enchantLoop (sigEnchantMap sig) q.userEnchants p with
          | none => rw [hl] at h; exact absurd h (by simp [qualOfOpt])
          | some b =>
            cases b with
            | true => rw [hl] at h; exact absurd h (by simp [qualOfOpt])
            | false => exact enchantLoop_some_false _ _ p hl
        · intro h
          cases hl : enchantLoop (sigEnchantMap sig) q.userEnchants p with
          | none => rw [hl] at h; exact absurd h (by simp [qualOfOpt])
          | some b =>
            cases b with
            | false => rw [hl] at h; exact absurd h (by simp [qualOfOpt])
            | true =>
              cases p with
              | false => exact Or.inr (enchantLoop_some_true_src _ _ hl)
              | true =>
                left
                unfold starsStepOf at hss
                by_cases hst : 0 < q.inputStars10
                · rw [if_pos hst] at hss
                  refine ⟨hst, ?_⟩
                  by_cases hd1 : |sigStars10 sig - q.inputStars10| = 1
                  · exact hd1
                  · rw [if_neg hd1] at hss
                    by_cases hd2 : 2 ≤ |sigStars10 sig - q.inputStars10|
                    · rw [if_pos hd2] at hss
                      cases hss
                    · rw [if_neg hd2] at hss
                      cases hss
                · rw [if_neg hst] at hss
                  cases hss
    · rw [if_pos (by simpa using hok)]
      refine ⟨fun _ => rfl, fun _ => rfl, fun h => ?_, fun h => ?_⟩
      · exact absurd h (by simp)
      · exact absurd h (by simp)

/-- C8 (witness for the amended theorem): a requested enchantment absent from
the candidate signature forces `NONE`. -/
theorem c8_amended_witness :
    strictMatchQuality ⟨[("sharpness", 7)], 0, ⟨false, "", "", "", "", 0, ""⟩⟩ "protection:5" =
      MatchQuality.NONE :=
  (c8_amended ⟨[("sharpness", 7)], 0, ⟨false, "", "", "", "", 0, ""⟩⟩ "protection:5").1
    ⟨("sharpness", 7), by decide, by decide, by decide⟩
theorem mem_insertByEnd {x y : AuctionRow} {l : List AuctionRow}
    (h : x ∈ insertByEnd y l) : x = y ∨ x ∈ l := by
  induction l with
  | nil => simpa [insertByEnd] using h
  | cons z rest ih =>
    simp only [insertByEnd] at h
    split at h
    · rcases List.mem_cons.mp h with h | h
      · exact Or.inl h
      · exact Or.inr h
    · rcases List.mem_cons.mp h with h | h
      · exact Or.inr (by simp [h])
      · rcases ih h with h | h
        · exact Or.inl h
        · exact Or.inr (List.mem_cons_of_mem _ h)

theorem mem_sortByEndTs {x : AuctionRow} {l : List AuctionRow}
    (h : x ∈ sortByEndTs l) : x ∈ l := by
  induction l with
  | nil => simp [sortByEndTs] at h
  | cons z rest ih =>
    rcases mem_insertByEnd (h : x ∈ insertByEnd z (sortByEndTs rest)) with h | h
    · simp [h]
    · exact List.mem_cons_of_mem _ (ih h)

theorem selectFinalize_pred {now : Int} {s : IngestState} {r : AuctionRow}
    (h : r ∈ selectFinalize now s) :
    r ∈ s.auctions ∧ finalizePred now s.sales r = true := by
  unfold selectFinalize at h
  have h1 : r ∈ sortByEndTs (s.auctions.filter (finalizePred now s.sales)) :=
    List.mem_of_mem_take h
  have h2 := mem_sortByEndTs h1
  exact ⟨List.mem_of_mem_filter h2, List.of_mem_filter h2⟩

theorem uuid_unique {l : List AuctionRow} (hn : (l.map AuctionRow.uuid).Nodup)
    {a b : AuctionRow} (ha : a ∈ l) (hb : b ∈ l) (h : a.uuid = b.uuid) : a = b :=
  List.inj_on_of_nodup_map hn ha hb h

theorem auctionLookup_markEnded_ne {l : List AuctionRow} {u u' : String} (h : u' ≠ u) :
    auctionLookup (markAuctionEnded l u') u = auctionLookup l u := by
  induction l with
  | nil => rfl
  | cons a rest ih =>
    simp only [markAuctionEnded, List.map_cons] at *
    by_cases hcond : a.uuid = u
    · have hne : ¬ a.uuid = u' := fun hh => h (hh.symm.trans hcond)
      rw [if_neg hne]
      simp only [auctionLookup, List.find?_cons, hcond]
      simp
    · by_cases hu' : a.uuid = u'
      · rw [if_pos hu']
        have hm : (({ a with isEnded := true } : AuctionRow)).uuid = u ↔ False := by
          simp [hcond]
        simp only [auctionLookup, List.find?_cons] at ih ⊢
        simp only [hm, hcond]
        simpa using ih
      · rw [if_neg hu']
        simp only [auctionLookup, List.find?_cons] at ih ⊢
        simp only [hcond]
        simpa using ih

theorem saleFind_mapUpdate_ne {l : List SaleRow} {r : SaleRow} {u : String}
    (h : ¬ r.uuid = u) :
    saleLookup (l.map (fun x => if x.uuid = r.uuid then applySaleUpsert x r else x)) u =
      saleLookup l u := by
  induction l with
  | nil => rfl
  | cons x rest ih =>
    simp only [List.map_cons]
    by_cases hx : x.uuid = r.uuid
    · rw [if_pos hx]
      have hxu : ¬ x.uuid = u := fun hh => h (hx ▸ hh ▸ rfl)
      have hau : ¬ ((applySaleUpsert x r).uuid = u) := hxu
      simp only [saleLookup, List.find?_cons] at ih ⊢
      simp only [hau, hxu]
      simpa using ih
    · rw [if_neg hx]
      by_cases hxu : x.uuid = u
      · simp only [saleLookup, List.find?_cons, hxu]
        simp
      · simp only [saleLookup, List.find?_cons, hxu] at ih ⊢
        simpa using ih

theorem saleFind_append_ne {l : List SaleRow} {r : SaleRow} {u : String}
    (h : ¬ r.uuid = u) :
    saleLookup (l ++ [r]) u = saleLookup l u := by
  induction l with
  | nil =>
    simp only [List.nil_append, saleLookup, List.find?_cons]
    simp [h]
  | cons x rest ih =>
    simp only [List.cons_append, saleLookup, List.find?_cons] at ih ⊢
    by_cases hxu : x.uuid = u
    · simp [hxu]
    · simp only [hxu]
      simpa using ih

theorem saleLookup_upsert_ne {l : List SaleRow} {r : SaleRow} {u : String}
    (h : ¬ r.uuid = u) :
    saleLookup (upsertSaleRow l r) u = saleLookup l u := by
  unfold upsertSaleRow
  split
  · exact saleFind_mapUpdate_ne h
  · exact saleFind_append_ne h

theorem finalize_fold_preserve (rows : List AuctionRow) (st : IngestState) (u : String)
    (hrows : ∀ r ∈ rows, ¬ r.uuid = u) :
    auctionLookup (rows.foldl (fun st r =>
      { auctions := markAuctionEnded st.auctions r.uuid,
        sales := upsertSaleRow st.sales (saleFromAuction r) }) st).auctions u =
      auctionLookup st.auctions u ∧
    saleLookup (rows.foldl (fun st r =>
      { auctions := markAuctionEnded st.auctions r.uuid,
        sales := upsertSaleRow st.sales (saleFromAuction r) }) st).sales u =
      saleLookup st.sales u := by
  induction rows generalizing st with
  | nil => exact ⟨rfl, rfl⟩
  | cons r rest ih =>
    have hr : ¬ r.uuid = u := hrows r (List.mem_cons_self _ _)
    have hrest : ∀ x ∈ rest, ¬ x.uuid = u := fun x hx => hrows x (List.mem_cons_of_mem _ hx)
    simp only [List.foldl_cons]
    obtain ⟨ihA, ihS⟩ := ih _ hrest
    refine ⟨ihA.trans ?_, ihS.trans ?_⟩
    · exact auctionLookup_markEnded_ne hr
    · exact saleLookup_upsert_ne (show ¬ (saleFromAuction r).uuid = u from hr)

/-- C10: promotion is exactly-once — once a sale row exists for a uuid and
its auction row is marked ended, a `finalizeEnded` run never selects that
uuid again and leaves both its auction row and its sale row unchanged.  The
`Nodup` hypothesis is the `uuid` primary-key invariant of the table. -/
theorem c10_finalize_noop (now : Int) (s : IngestState) (u : String)
    (hnodup : (s.auctions.map AuctionRow.uuid).Nodup)
    (a : AuctionRow) (ha : auctionLookup s.auctions u = some a) (hend : a.isEnded = true)
    (sr : SaleRow) (hsr : saleLookup s.sales u = some sr) :
    (∀ r ∈ selectFinalize now s, r.uuid ≠ u) ∧
    auctionLookup (finalizeEnded now s).1.auctions u = some a ∧
    saleLookup (finalizeEnded now s).1.sales u = some sr := by
  have hmem : a ∈ s.auctions := List.mem_of_find?_eq_some ha
  have hau : a.uuid = u := by simpa using List.find?_some ha
  have hnu : ∀ r ∈ selectFinalize now s, r.uuid ≠ u := by
    intro r hr hru
    obtain ⟨hrmem, hpred⟩ := selectFinalize_pred hr
    have hra : r = a := uuid_unique hnodup hrmem hmem (hru.trans hau.symm)
    subst hra
    simp [finalizePred, hru, hend, hsr] at hpred
  obtain ⟨hA, hS⟩ := finalize_fold_preserve (selectFinalize now s) s u hnu
  exact ⟨hnu, hA.trans ha, hS.trans hsr⟩

/-- C10 (witness): a one-row state with the auction ended and its sale
present is left unchanged by `finalizeEnded`. -/
theorem c10_finalize_noop_witness :
    (∀ r ∈ selectFinalize 1000
      ⟨[⟨"u1", "Item", none, true, 0, 5, 10, 0, none, none, none, none, 900, none, true⟩],
       [⟨"u1", "Item", none, true, 10, 5, none, none, none, none, none⟩]⟩, r.uuid ≠ "u1") ∧
    auctionLookup (finalizeEnded 1000
      ⟨[⟨"u1", "Item", none, true, 0, 5, 10, 0, none, none, none, none, 900, none, true⟩],
       [⟨"u1", "Item", none, true, 10, 5, none, none, none, none, none⟩]⟩).1.auctions "u1" =
      some ⟨"u1", "Item", none, true, 0, 5, 10, 0, none, none, none, none, 900, none, true⟩ ∧
    saleLookup (finalizeEnded 1000
      ⟨[⟨"u1", "Item", none, true, 0, 5, 10, 0, none, none, none, none, 900, none, true⟩],
       [⟨"u1", "Item", none, true, 10, 5, none, none, none, none, none⟩]⟩).1.sales "u1" =
      some ⟨"u1", "Item", none, true, 10, 5, none, none, none, none, none⟩ :=
  c10_finalize_noop 1000
    ⟨[⟨"u1", "Item", none, true, 0, 5, 10, 0, none, none, none, none, 900, none, true⟩],
     [⟨"u1", "Item", none, true, 10, 5, none, none, none, none, none⟩]⟩ "u1"
    (by decide)
    ⟨"u1", "Item", none, true, 0, 5, 10, 0, none, none, none, none, 900, none, true⟩ rfl rfl
    ⟨"u1", "Item", none, true, 10, 5, none, none, none, none, none⟩ rfl
theorem syncPages_fail (fetch : Nat → Option FeedPage) (now : Int) :
    ∀ (k rem p : Nat) (s : IngestState), k < rem →
      fetch (p + k) = none → (∀ i, i < k → fetch (p + i) ≠ none) →
      syncPages fetch now rem p s = (upsertPagesFrom fetch now k p s, false) := by
  intro k
  induction k with
  | zero =>
    intro rem p s hlt hfail _
    cases rem with
    | zero => omega
    | succ r =>
      have hf : fetch p = none := hfail
      simp only [syncPages, upsertPagesFrom]
      rw [hf]
  | succ k ih =>
    intro rem p s hlt hfail hsucc
    cases rem with
    | zero => omega
    | succ r =>
      have h0 : fetch p ≠ none := by
        have := hsucc 0 (by omega)
        simpa using this
      obtain ⟨pg, hpg⟩ := Option.ne_none_iff_exists'.mp h0
      simp only [syncPages, upsertPagesFrom]
      rw [hpg]
      apply ih r (p + 1)
      · omega
      · have he : p + 1 + k = p + (k + 1) := by omega
        rw [he]
        exact hfail
      · intro i hi
        have hs := hsucc (i + 1) (by omega)
        have he : p + (i + 1) = p + 1 + i := by omega
        rw [he] at hs
        exact hs

/-- C3 (amended): when any page fetch fails after the retry budget, the cycle
aborts before the unseen-mark, finalize and backfill phases — the resulting
state is exactly the bulk upserts of the pages fetched before the failure
(which, for a failure on page `k+1 ≥ 1`, have already been written). -/
theorem c3_amended (fetch : Nat → Option FeedPage) (now : Int) (s0 : IngestState) :
    (fetch 0 = none → syncOnce fetch now s0 = (s0, false)) ∧
    (∀ pg0, fetch 0 = some pg0 →
      ∀ k, k < (min (max 1 pg0.totalPages) 200 - 1).toNat →
        fetch (k + 1) = none → (∀ i, i < k → fetch (i + 1) ≠ none) →
        syncOnce fetch now s0 =
          (upsertPagesFrom fetch now k 1 (upsertAuctionsBulk pg0.auctions now s0), false)) := by
  constructor
  · intro h
    unfold syncOnce
    rw [h]
  · intro pg0 h0 k hk hfail hsucc
    unfold syncOnce
    rw [h0]
    dsimp only
    rw [syncPages_fail fetch now k _ 1 _ hk
      (by rw [show 1 + k = k + 1 from by omega]; exact hfail)
      (fun i hi => by rw [show 1 + i = i + 1 from by omega]; exact hsucc i hi)]

/-- C3 (counterexample): a two-page cycle whose second page fails after the
retry budget still writes the auction row of page 0 before aborting — the
store is not left untouched (its auctions table now holds `u1`). -/
theorem c3_counterexample :
    (syncOnce (fun p => if p = 0 then
        some ⟨2, [⟨"u1", "Item", true, 0, 99, 10, 0, none, none, none, none⟩]⟩
      else none) 1000 ⟨[], []⟩).2 = false ∧
    ((syncOnce (fun p => if p = 0 then
        some ⟨2, [⟨"u1", "Item", true, 0, 99, 10, 0, none, none, none, none⟩]⟩
      else none) 1000 ⟨[], []⟩).1.auctions.map AuctionRow.uuid = ["u1"]) := by
  decide

/-- C3 (witness for the amended theorem): under the same two-page feed, the
aborted cycle's state is exactly the page-0 bulk upsert. -/
theorem c3_amended_witness :
    syncOnce (fun p => if p = 0 then
        some ⟨2, [⟨"u1", "Item", true, 0, 99, 10, 0, none, none, none, none⟩]⟩
      else none) 1000 ⟨[], []⟩ =
      (upsertPagesFrom (fun p => if p = 0 then
          some ⟨2, [⟨"u1", "Item", true, 0, 99, 10, 0, none, none, none, none⟩]⟩
        else none) 1000 0 1
        (upsertAuctionsBulk [⟨"u1", "Item", true, 0, 99, 10, 0, none, none, none, none⟩]
          1000 ⟨[], []⟩), false) :=
  (c3_amended (fun p => if p = 0 then
      some ⟨2, [⟨"u1", "Item", true, 0, 99, 10, 0, none, none, none, none⟩]⟩
    else none) 1000 ⟨[], []⟩).2
    ⟨2, [⟨"u1", "Item", true, 0, 99, 10, 0, none, none, none, none⟩]⟩ rfl 0
    (by decide) rfl (fun i hi => absurd hi (by omega))
